import Mathlib

/-!
Pile-driving journal bot: dialogue state machine and pile grouping

A shallow embedding of `cmd/bot/main.go` and `internal/model/model.go`.

* Go strings are Lean `String`s (the texts handled here are valid UTF-8).
* Go slices are Lean lists; a nil slice and an empty slice are both `[]`
  (the program only ever inspects their length).
* A handler that mutates `*UserState` and talks to Telegram or the backend becomes a
  function returning the new state together with the list of effects it emitted, in order.
  The chat identifier is dropped: one `UserState` is the session of one chat.
* What the environment supplies (the list fetched by `getPilesToDriving`, the wall clock,
  the outcome of the HTTP POST) is an explicit argument.
-/

namespace PileBot

/-! ## Data model -/

/-- Model of `time.Time` as stored in a record: seconds elapsed since
January 1 of year 1, 00:00:00 UTC. The Go zero value is `0`. -/
structure Time where
  sec : Int
deriving DecidableEq, Repr

/-- The record of `internal/model/model.go`; Go `int` fields are integers. -/
structure PileDrivingRecordLine where
  ProjectId : Int
  PileNumber : String
  PileFieldId : Int
  StartDate : Time
  FactPileHead : Int
  RecordedBy : String
deriving DecidableEq, Repr

/-- The Go zero value `model.PileDrivingRecordLine{}`. -/
def zeroRecord : PileDrivingRecordLine :=
  { ProjectId := 0, PileNumber := "", PileFieldId := 0, StartDate := { sec := 0 },
    FactPileHead := 0, RecordedBy := "" }

/-- The per-chat session `UserState`. -/
structure UserState where
  WaitingFor : String
  CurrentRecord : PileDrivingRecordLine
  AvailablePiles : List String
  SelectionHistory : List (List String)
deriving DecidableEq, Repr

/-- The Go zero value `&UserState{}` that `main` stores on first contact. -/
def emptyState : UserState :=
  { WaitingFor := "", CurrentRecord := zeroRecord, AvailablePiles := [], SelectionHistory := [] }

/-- What a handler sends out.
* `message t`: `sendMessage(chatID, t)`;
* `keyboard t rows`: a message `t` carrying a reply keyboard with the given rows of buttons;
* `post r`: `http.Post` of the JSON serialisation of `r` to the backend;
* `confirmation r`: the remove-keyboard message sent after HTTP 200, whose text is rendered
  from the pile number, date and elevation of `r`;
* `serverError status`: the remove-keyboard message "Сервер вернул ошибку: " followed by
  the status text;
* `dateChosen d`: the `sendMessage` of "Выбрана дата: " followed by `d` in the format
  `DD.MM.YYYY` and the prompt for the elevation. -/
inductive Effect where
  | message (text : String)
  | keyboard (text : String) (rows : List (List String))
  | post (record : PileDrivingRecordLine)
  | confirmation (record : PileDrivingRecordLine)
  | serverError (status : String)
  | dateChosen (date : Time)
deriving DecidableEq, Repr

/-- The constant `GroupsCount`. -/
def GroupsCount : Nat := 6

/-! ## Library functions used by the handlers -/

/-- Substring test on character lists. -/
def containsChars (sub : List Char) : List Char → Bool
  | [] => sub.isEmpty
  | c :: cs => sub.isPrefixOf (c :: cs) || containsChars sub cs

/-- Go `strings.Contains(s, substr)`. -/
def stringsContains (s substr : String) : Bool :=
  containsChars substr.data s.data

/-- The white-space table of Go `fmt` (scan.go, `isSpace`). -/
def isSpace (r : Char) : Bool :=
  let n := r.toNat
  (0x0009 ≤ n && n ≤ 0x000d) || n == 0x0020 || n == 0x0085 || n == 0x00a0 || n == 0x1680 ||
    (0x2000 ≤ n && n ≤ 0x200a) || (0x2028 ≤ n && n ≤ 0x2029) || n == 0x202f || n == 0x205f ||
    n == 0x3000

/-- Go `(*ss).SkipSpace` for `Sscanf`: leading white space is dropped, a newline is an
error (`none`). -/
def skipSpace : List Char → Option (List Char)
  | [] => some []
  | r :: rest =>
    if r = '\n' then none
    else if isSpace r then skipSpace rest
    else some (r :: rest)

/-- The digit set that `getBase` gives `scanNumber` for the verb `%d`: the decimal digits
`0123456789` (the underscore belongs to the verb `%v` only). -/
def isScanDigit (c : Char) : Bool :=
  '0' ≤ c && c ≤ '9'

/-- Go `strconv.ParseUint(tok, 10, 64)` on the unsigned part of a token, without the final
range check: `none` on a character that is not a decimal digit. -/
def parseDecimal : List Char → Nat → Option Nat
  | [], acc => some acc
  | c :: cs, acc =>
    if '0' ≤ c && c ≤ '9' then parseDecimal cs (acc * 10 + (c.toNat - '0'.toNat))
    else none

/-- Go `parseInt(s)`, that is `fmt.Sscanf(s, "%d", &i)`: `none` when `err != nil`, otherwise
the scanned value. Leading space is skipped, an optional sign is read, then the longest run
of decimal digits (at least one), which `strconv.ParseInt(tok, 10, 64)` must accept (value
within int64). Whatever follows the run is left unread and is not an error. -/
def parseInt (s : String) : Option Int :=
  match skipSpace s.data with
  | none => none
  | some [] => none
  | some (c :: cs) =>
    let neg := c = '-'
    let body := if c = '+' ∨ c = '-' then cs else c :: cs
    let tok := body.takeWhile isScanDigit
    if tok = [] then none
    else
      match parseDecimal tok 0 with
      | none => none
      | some un =>
        if neg then (if un ≤ 2 ^ 63 then some (-(un : Int)) else none)
        else (if un < 2 ^ 63 then some (un : Int) else none)

/-- The wall clock read by `time.Now()`: the local calendar date (`now.Year()`,
`now.Month()`, `now.Day()`). -/
structure WallClock where
  Year : Int
  Month : Int
  Day : Int
deriving DecidableEq, Repr

/-- Go `norm(hi, lo, base)` of package `time`. -/
def norm (hi lo base : Int) : Int × Int :=
  let p : Int × Int :=
    if lo < 0 then
      let n := (-lo - 1) / base + 1
      (hi - n, lo + n * base)
    else (hi, lo)
  if p.2 ≥ base then
    let n := p.2 / base
    (p.1 + n, p.2 - n * base)
  else p

/-- Go `isLeap`. -/
def isLeap (year : Int) : Bool :=
  year % 4 == 0 && (year % 100 != 0 || year % 400 == 0)

/-- Go table `daysBefore`: days in a non-leap year before month `m + 1`. -/
def daysBefore (m : Int) : Int :=
  [0, 31, 59, 90, 120, 151, 181, 212, 243, 273, 304, 334, 365].getD m.toNat 0

/-- Days from January 1 of year 1 to January 1 of `year` (proleptic Gregorian calendar). -/
def daysBeforeYear (year : Int) : Int :=
  let y := year - 1
  365 * y + y / 4 - y / 100 + y / 400

/-- Go `time.Date(year, month, day, 0, 0, 0, 0, time.UTC)`: the month is normalised into
the year, days before the year and before the month are added up, and `day` may be any
integer (day 0 is the last day of the previous month). -/
def timeDate (year month day : Int) : Time :=
  let ym := norm year (month - 1) 12
  let y := ym.1
  let m := ym.2 + 1
  let d := daysBeforeYear y + daysBefore (m - 1) +
    (if isLeap y && decide (m ≥ 3) then 1 else 0) + (day - 1)
  { sec := d * 86400 }

/-! ## Output helpers -/

/-- Go `sendMessage`. -/
def sendMessage (text : String) : List Effect :=
  [Effect.message text]

/-- Go `sendDateSelection`: one keyboard row with the two date buttons. -/
def sendDateSelection : List Effect :=
  [Effect.keyboard "Выберите дату забивки:" [["Сегодня", "Вчера"]]]

/-- Go `showSinglePiles`: one button per pile, one button per row. -/
def showSinglePiles (state : UserState) (piles : List String) : UserState × List Effect :=
  (state, [Effect.keyboard "Выберите номер сваи:" (piles.map fun pile => [pile])])

/-- Go `fmt.Sprintf("%s..%s", minPile, maxPile)`. -/
def rangeLabel (minPile maxPile : String) : String :=
  minPile ++ ".." ++ maxPile

/-- The label of a group, `group[0] .. group[len(group)-1]`; an empty group has none. -/
def groupLabel : List String → Option String
  | [] => none
  | minPile :: rest => some (rangeLabel minPile ((minPile :: rest).getLast (List.cons_ne_nil _ _)))

/-! ## Pile grouping -/

/-- Go slice expression `piles[start:end]`. -/
def slice (piles : List String) (start stop : Nat) : List String :=
  (piles.drop start).take (stop - start)

/-- The loop of `splitIntoGroups`: `count` iterations remain, `i` is the loop index and
`start` the running offset. -/
def splitLoop (piles : List String) (groupSize remainder : Nat) :
    Nat → Nat → Nat → List (List String)
  | 0, _, _ => []
  | count + 1, i, start =>
    let stop := if i < remainder then start + groupSize + 1 else start + groupSize
    slice piles start stop :: splitLoop piles groupSize remainder count (i + 1) stop

/-- Go `splitIntoGroups`. `groupsCount` is a natural number here; with `groupsCount = 0`
and a non-empty list the Go code panics on the division, so the model is meant for
`groupsCount ≥ 1` (the program only passes `GroupsCount`). -/
def splitIntoGroups (piles : List String) (groupsCount : Nat) : List (List String) :=
  if piles.length ≤ groupsCount then
    piles.map fun pile => [pile]
  else
    let groupSize := piles.length / groupsCount
    let remainder := piles.length % groupsCount
    splitLoop piles groupSize remainder groupsCount 0 0

/-- Go `showPileGroups`. -/
def showPileGroups (state : UserState) (piles : List String) : UserState × List Effect :=
  if piles.length ≤ GroupsCount then
    showSinglePiles state piles
  else
    let groups := splitIntoGroups piles GroupsCount
    let rows := groups.filterMap fun group => (groupLabel group).map fun l => [l]
    ({ state with SelectionHistory := state.SelectionHistory ++ groups },
      [Effect.keyboard "Выберите группу свай:" rows])

/-- Go `startNewRecord`; `fetched` is what `getPilesToDriving()` returned (a JSON `null`
gives the nil slice, modelled as `[]`). A fetch that fails ends the process through
`log.Fatal` and leaves no state to speak about, so only returned lists are modelled. -/
def startNewRecord (state : UserState) (fetched : List String) : UserState × List Effect :=
  let state1 : UserState :=
    { state with CurrentRecord := zeroRecord, SelectionHistory := [], AvailablePiles := fetched }
  if state1.AvailablePiles.length = 0 then
    (state1, sendMessage "Нет доступных свай для забивки.")
  else
    showPileGroups { state1 with WaitingFor := "pileNumber" } state1.AvailablePiles

/-! ## Input handlers -/

/-- Go `findSelectedGroup`; `none` is the nil result. -/
def findSelectedGroup : List (List String) → String → Option (List String)
  | [], _ => none
  | group :: rest, selection =>
    match groupLabel group with
    | none => findSelectedGroup rest selection
    | some l => if l = selection then some group else findSelectedGroup rest selection

/-- Go `contains`. -/
def contains : List String → String → Bool
  | [], _ => false
  | s :: rest, item => if s = item then true else contains rest item

/-- Go `handlePileNumberSelection`. -/
def handlePileNumberSelection (state : UserState) (text : String) : UserState × List Effect :=
  if stringsContains text ".." then
    match findSelectedGroup state.SelectionHistory text with
    | none => (state, sendMessage "Неверный выбор группы. Попробуйте еще раз.")
    | some selectedGroup => showPileGroups state selectedGroup
  else
    if !contains state.AvailablePiles text then
      (state, sendMessage "Неверный номер сваи. Пожалуйста, выберите из предложенных вариантов.")
    else
      ({ state with
          CurrentRecord := { state.CurrentRecord with PileNumber := text },
          WaitingFor := "drivingDate" },
        sendDateSelection)

/-- Go `handleDrivingDateSelection`; `now` is `time.Now()`. -/
def handleDrivingDateSelection (now : WallClock) (state : UserState) (text : String) :
    UserState × List Effect :=
  let accept (selectedDate : Time) : UserState × List Effect :=
    ({ state with
        CurrentRecord := { state.CurrentRecord with StartDate := selectedDate },
        WaitingFor := "pileTopLevel" },
      [Effect.dateChosen selectedDate])
  if text = "Сегодня" then accept (timeDate now.Year now.Month now.Day)
  else if text = "Вчера" then accept (timeDate now.Year now.Month (now.Day - 1))
  else (state, sendMessage "Пожалуйста, выберите одну из предложенных дат" ++ sendDateSelection)

/-- Go `handlePileTopLevelInput`. -/
def handlePileTopLevelInput (state : UserState) (text : String) : UserState × List Effect :=
  match parseInt text with
  | none =>
    (state,
      sendMessage "Неверный формат числа. Пожалуйста, введите отметку в милиметрах (например, 12750):")
  | some factPileHead =>
    ({ state with
        CurrentRecord := { state.CurrentRecord with FactPileHead := factPileHead },
        WaitingFor := "operatorName" },
      sendMessage "Введите имя оператора (или /skip чтобы пропустить):")

/-- Go `handleOperatorNameInput`. -/
def handleOperatorNameInput (state : UserState) (text : String) : UserState × List Effect :=
  let state1 : UserState :=
    if text ≠ "/skip" then
      { state with CurrentRecord := { state.CurrentRecord with RecordedBy := text } }
    else state
  ({ state1 with WaitingFor := "additionalInfo" },
    sendMessage "Введите дополнительную информацию (или /skip чтобы пропустить):")

/-- What happened to the submission: `json.Marshal` failed, `http.Post` failed, or the
backend answered with a status code and status text. -/
inductive PostOutcome where
  | marshalError (err : String)
  | transportError (err : String)
  | response (statusCode : Nat) (status : String)
deriving DecidableEq, Repr

/-- Go `sendDataToWebService`; `outcome` is what the serialisation and the HTTP call do. -/
def sendDataToWebService (state : UserState) (outcome : PostOutcome) : UserState × List Effect :=
  match outcome with
  | PostOutcome.marshalError err =>
    (state, sendMessage ("Ошибка при подготовке данных: " ++ err))
  | PostOutcome.transportError err =>
    (state, Effect.post state.CurrentRecord ::
      sendMessage ("Ошибка при отправке данных на сервер: " ++ err))
  | PostOutcome.response statusCode status =>
    ({ state with WaitingFor := "", SelectionHistory := [] },
      [Effect.post state.CurrentRecord,
       if statusCode = 200 then Effect.confirmation state.CurrentRecord
       else Effect.serverError status])

/-- Go `processUserInput`: dispatch on `state.WaitingFor`. -/
def processUserInput (now : WallClock) (state : UserState) (text : String) :
    UserState × List Effect :=
  if state.WaitingFor = "pileNumber" then handlePileNumberSelection state text
  else if state.WaitingFor = "drivingDate" then handleDrivingDateSelection now state text
  else if state.WaitingFor = "pileTopLevel" then handlePileTopLevelInput state text
  else if state.WaitingFor = "operatorName" then handleOperatorNameInput state text
  else
    (state, sendMessage "Используйте /newrecord для начала новой записи или /help для справки.")

/-- One message delivered to the bot, with what the environment would answer while it is
handled: the pile list `getPilesToDriving()` returns and the reading of the clock. -/
structure Update where
  text : String
  fetched : List String
  now : WallClock
deriving DecidableEq, Repr

/-- The body of the update loop of `main` for one session. -/
def handleUpdate (state : UserState) (u : Update) : UserState × List Effect :=
  if u.text = "/start" then
    (state, sendMessage
      ("Добро пожаловать в журнал забивки свай!\n\n" ++ "Используйте команды:\n" ++
        "/newrecord - начать новую запись\n" ++ "/help - помощь"))
  else if u.text = "/help" then
    (state, sendMessage
      ("Команды бота:\n" ++ "/newrecord - начать новую запись о забивке сваи\n" ++
        "/help - показать эту справку"))
  else if u.text = "/newrecord" then startNewRecord state u.fetched
  else processUserInput u.now state u.text

/-- The session state after a sequence of updates. -/
def runUpdates (state : UserState) (us : List Update) : UserState :=
  us.foldl (fun s u => (handleUpdate s u).1) state

/-- The candidate list of the end-to-end scenario: P-1, ..., P-20. -/
def piles20 : List String :=
  ["P-1", "P-2", "P-3", "P-4", "P-5", "P-6", "P-7", "P-8", "P-9", "P-10",
   "P-11", "P-12", "P-13", "P-14", "P-15", "P-16", "P-17", "P-18", "P-19", "P-20"]

/-- An identifier without the character `.`. -/
def dotFree (p : String) : Prop := '.' ∉ p.data

instance : DecidablePred dotFree :=
  fun p => inferInstanceAs (Decidable ('.' ∉ p.data))

/-- Every group recorded in the history is a non-empty contiguous part of the session's
candidate list. -/
def histOK (s : UserState) : Prop :=
  ∀ grp ∈ s.SelectionHistory, grp ≠ [] ∧ grp <:+: s.AvailablePiles

/-- The values of `WaitingFor` that belong to a record flow in progress. -/
def activeSteps : List String :=
  ["pileNumber", "drivingDate", "pileTopLevel", "operatorName", "additionalInfo"]

/-- A reading of the clock used in the scenarios (1 March 2024). -/
def clock0 : WallClock := { Year := 2024, Month := 3, Day := 1 }

/-- A text message, with nothing fetched while it is handled. -/
def textUpdate (text : String) : Update :=
  { text := text, fetched := [], now := clock0 }

/-- The command `/newrecord`, answered by the backend with the list `fetched`. -/
def newRecordUpdate (fetched : List String) : Update :=
  { text := "/newrecord", fetched := fetched, now := clock0 }

/-- A candidate list with a repeated identifier. -/
def dupPiles : List String := ["x", "x", "x", "y", "z", "w", "v"]

/-- A candidate list of pairwise distinct identifiers, some of which contain dots. -/
def dottedPiles : List String := ["a", "b..a..b", "a..b", "y", "z", "w", "v"]

/-- The effects contain the menu of `showSinglePiles` for the list `offered`: a flat list
of identifiers is offered. -/
def flatOffered (effs : List Effect) (offered : List String) : Prop :=
  Effect.keyboard "Выберите номер сваи:" (offered.map fun pile => [pile]) ∈ effs

/-- While a pile is being selected the record is still the zero record. -/
def recordFresh (s : UserState) : Prop :=
  s.WaitingFor = "pileNumber" → s.CurrentRecord = zeroRecord

/-- The session state after a sequence of texts handled by `processUserInput`, with all
the effects emitted on the way, in order. -/
def runTexts (now : WallClock) : UserState → List String → UserState × List Effect
  | s, [] => (s, [])
  | s, t :: ts =>
    let r := processUserInput now s t
    let r2 := runTexts now r.1 ts
    (r2.1, r.2 ++ r2.2)

/-- The first of the given groups that contains `p`. -/
def groupOf (groups : List (List String)) (p : String) : Option (List String) :=
  groups.find? fun g => contains g p

/-- The texts an operator sends to drill down to `p` when the list `cur` has just been put
to `showPileGroups`: as long as a menu of groups is offered (more than `GroupsCount`
members), the label of the offered group that contains `p`, then the same for that group.
`fuel` bounds the number of menus; the length of `cur` is enough. -/
def drillInputs : Nat → List String → String → List String
  | 0, _, _ => []
  | fuel + 1, cur, p =>
    if cur.length ≤ GroupsCount then []
    else
      match groupOf (splitIntoGroups cur GroupsCount) p with
      | none => []
      | some g =>
        match groupLabel g with
        | none => []
        | some l => l :: drillInputs fuel g p

/-- Before the operator step is left, the operator name of the record is empty. -/
def operatorFresh (s : UserState) : Prop :=
  s.WaitingFor ≠ "additionalInfo" → s.CurrentRecord.RecordedBy = ""

/-- The texts an operator sends when the list `cur` has just been put to `showPileGroups`
and, at every menu of groups, the group `choose` picks among the offered ones is selected
by its label, until a flat list is shown. `fuel` bounds the number of menus; the length of
`cur` is enough. -/
def drillWith (choose : List (List String) → List String) : Nat → List String → List String
  | 0, _ => []
  | fuel + 1, cur =>
    if cur.length ≤ GroupsCount then []
    else
      match groupLabel (choose (splitIntoGroups cur GroupsCount)) with
      | none => []
      | some l => l :: drillWith choose fuel (choose (splitIntoGroups cur GroupsCount))

/-- A candidate list of 43 piles that all carry the name "x". -/
def sameNamePiles : List String := List.replicate 43 "x"

/-- The menu of six groups that are all labelled "x..x". -/
def sameNameMenu : Effect :=
  Effect.keyboard "Выберите группу свай:"
    [["x..x"], ["x..x"], ["x..x"], ["x..x"], ["x..x"], ["x..x"]]

/-! ## The calendar, counted day by day (specification side of the date step) -/

/-- Leap years of the Gregorian calendar: divisible by 4 and not by 100, or divisible by
400. -/
def gregorianLeap (year : Int) : Prop :=
  (year % 4 = 0 ∧ year % 100 ≠ 0) ∨ year % 400 = 0

instance : DecidablePred gregorianLeap :=
  fun year => inferInstanceAs (Decidable ((year % 4 = 0 ∧ year % 100 ≠ 0) ∨ year % 400 = 0))

/-- The number of days of a calendar year. -/
def yearLength (year : Int) : Int :=
  if gregorianLeap year then 366 else 365

/-- The number of days of month `m` (1 to 12) of a calendar year. -/
def monthLength (year : Int) (m : Int) : Int :=
  if m = 2 then (if gregorianLeap year then 29 else 28)
  else if m = 4 ∨ m = 6 ∨ m = 9 ∨ m = 11 then 30
  else 31

/-- The days of the years 1, 2, ..., n together. -/
def daysOfYearsUp : Nat → Int
  | 0 => 0
  | n + 1 => daysOfYearsUp n + yearLength (n + 1)

/-- The days of the years 0, -1, ..., -(n - 1) together. -/
def daysOfYearsDown : Nat → Int
  | 0 => 0
  | n + 1 => daysOfYearsDown n + yearLength (-(n : Int))

/-- The days from January 1 of year 1 to January 1 of `year`, counted year by year
(negative before year 1). -/
def daysToYear (year : Int) : Int :=
  if 1 ≤ year then daysOfYearsUp (year - 1).toNat else -daysOfYearsDown (1 - year).toNat

/-- The days of the months 1, ..., n of a year together. -/
def daysOfMonths (year : Int) : Nat → Int
  | 0 => 0
  | n + 1 => daysOfMonths year n + monthLength year (n + 1)

/-- The fields of the clock form a calendar date. -/
def validDate (c : WallClock) : Prop :=
  1 ≤ c.Month ∧ c.Month ≤ 12 ∧ 1 ≤ c.Day ∧ c.Day ≤ monthLength c.Year c.Month

/-- The instant 00:00:00 UTC of a calendar date: the days of the years before it, of the
months before it and of the month so far, in seconds since January 1 of year 1. -/
def midnightUTC (c : WallClock) : Time :=
  { sec := (daysToYear c.Year + daysOfMonths c.Year (c.Month - 1).toNat + (c.Day - 1)) * 86400 }

/-- The calendar date one day earlier: the day before in the same month, else the last
day of the month before, else December 31 of the year before. -/
def previousDay (c : WallClock) : WallClock :=
  if 1 < c.Day then { c with Day := c.Day - 1 }
  else if 1 < c.Month then
    { c with Month := c.Month - 1, Day := monthLength c.Year (c.Month - 1) }
  else { Year := c.Year - 1, Month := 12, Day := 31 }

/-- A reading of the clock on the first day of a year (1 January 2025). -/
def newYear2025 : WallClock := { Year := 2025, Month := 1, Day := 1 }

/-! ## Pile grouping: sizes and coverage -/

theorem slice_length (piles : List String) (a b : Nat) (h : b ≤ piles.length) :
    (slice piles a b).length = b - a := by
  unfold slice
  simp only [List.length_take, List.length_drop]
  omega

theorem slice_append (piles : List String) (a b c : Nat) (hab : a ≤ b) (hbc : b ≤ c) :
    slice piles a b ++ slice piles b c = slice piles a c := by
  unfold slice
  have h1 : c - a = (b - a) + (c - b) := by omega
  have h2 : List.drop b piles = List.drop (b - a) (List.drop a piles) := by
    rw [List.drop_drop]; congr 1; omega
  rw [h1, List.take_add, h2]

theorem slice_self (piles : List String) (a : Nat) : slice piles a a = [] := by
  simp [slice]

theorem splitLoop_length (piles : List String) (gs r : Nat) :
    ∀ count i start, (splitLoop piles gs r count i start).length = count := by
  intro count
  induction count with
  | zero => intro i start; rfl
  | succ k ih => intro i start; simp [splitLoop, ih]

theorem splitLoop_join (piles : List String) (gs r : Nat) :
    ∀ count i start, r ≤ i + count →
      (splitLoop piles gs r count i start).flatten = slice piles start (start + count * gs + (r - i)) := by
  intro count
  induction count with
  | zero =>
    intro i start h
    have : r - i = 0 := by omega
    simp [splitLoop, this, slice_self]
  | succ k ih =>
    intro i start h
    simp only [splitLoop, List.flatten_cons]
    rw [ih (i + 1) _ (by omega), slice_append _ _ _ _ (by split <;> omega) (by split <;> omega)]
    congr 1
    rw [Nat.succ_mul]
    split <;> omega

theorem splitLoop_map_length (piles : List String) (gs r : Nat) :
    ∀ count i start, r ≤ i + count → start + count * gs + (r - i) ≤ piles.length →
      (splitLoop piles gs r count i start).map List.length =
        (List.range' i count).map fun j => if j < r then gs + 1 else gs := by
  intro count
  induction count with
  | zero => intro i start _ _; rfl
  | succ k ih =>
    intro i start h1 h2
    rw [Nat.succ_mul] at h2
    simp only [splitLoop, List.map_cons, List.range'_succ]
    rw [ih (i + 1) _ (by omega) (by split <;> omega), slice_length _ _ _ (by split <;> omega)]
    congr 1
    split <;> omega

theorem flatten_map_singleton (piles : List String) :
    (piles.map fun pile => [pile]).flatten = piles := by
  induction piles with
  | nil => rfl
  | cons p ps ih => simp [ih]

theorem splitIntoGroups_map_length (piles : List String) (g : Nat) (hg : 1 ≤ g)
    (hn : g < piles.length) :
    (splitIntoGroups piles g).map List.length =
      (List.range g).map fun j => if j < piles.length % g then piles.length / g + 1
        else piles.length / g := by
  have hr : piles.length % g < g := Nat.mod_lt _ (by omega)
  have hd : g * (piles.length / g) + piles.length % g = piles.length := Nat.div_add_mod _ _
  unfold splitIntoGroups
  rw [if_neg (by omega), List.range_eq_range']
  apply splitLoop_map_length
  · omega
  · omega

theorem splitIntoGroups_flatten (piles : List String) (g : Nat) (hg : 1 ≤ g) :
    (splitIntoGroups piles g).flatten = piles := by
  unfold splitIntoGroups
  split
  · exact flatten_map_singleton piles
  · have hr : piles.length % g < g := Nat.mod_lt _ (by omega)
    have hd : g * (piles.length / g) + piles.length % g = piles.length := Nat.div_add_mod _ _
    rw [splitLoop_join _ _ _ _ _ _ (by omega)]
    have : 0 + g * (piles.length / g) + (piles.length % g - 0) = piles.length := by omega
    rw [this]
    simp [slice]

/-- C1: for a list of length n and a group count g with 1 ≤ g < n, splitIntoGroups returns
exactly g groups, the group at index i has length n / g + 1 when i < n mod g and n / g
otherwise, and the lengths of any two groups differ by at most one. -/
theorem C1_splitIntoGroups_sizes (piles : List String) (g : Nat) (hg : 1 ≤ g)
    (hn : g < piles.length) :
    (splitIntoGroups piles g).length = g ∧
    (∀ i, i < g → ((splitIntoGroups piles g)[i]?).map List.length =
      some (if i < piles.length % g then piles.length / g + 1 else piles.length / g)) ∧
    (∀ a ∈ splitIntoGroups piles g, ∀ b ∈ splitIntoGroups piles g,
      a.length ≤ b.length + 1) := by
  have hmap := splitIntoGroups_map_length piles g hg hn
  have hlen : (splitIntoGroups piles g).length = g := by
    have := congrArg List.length hmap
    simpa using this
  have hmem : ∀ a ∈ splitIntoGroups piles g,
      a.length = piles.length / g ∨ a.length = piles.length / g + 1 := by
    intro a ha
    have : a.length ∈ (splitIntoGroups piles g).map List.length := List.mem_map_of_mem _ ha
    rw [hmap, List.mem_map] at this
    obtain ⟨j, _, hj⟩ := this
    split at hj <;> omega
  refine ⟨hlen, ?_, ?_⟩
  · intro i hi
    have := congrArg (fun l => l[i]?) hmap
    simp only [List.getElem?_map] at this
    rw [this, List.getElem?_range hi]
    rfl
  · intro a ha b hb
    rcases hmem a ha with h1 | h1 <;> rcases hmem b hb with h2 | h2 <;> omega

/-- The witness of C1: twenty identifiers and six groups give the sizes 4, 4, 3, 3, 3, 3. -/
theorem C1_splitIntoGroups_sizes_witness :
    (splitIntoGroups piles20 6).map List.length = [4, 4, 3, 3, 3, 3] ∧
    ((splitIntoGroups piles20 6).length = 6 ∧
    (∀ i, i < 6 → ((splitIntoGroups piles20 6)[i]?).map List.length =
      some (if i < piles20.length % 6 then piles20.length / 6 + 1 else piles20.length / 6)) ∧
    (∀ a ∈ splitIntoGroups piles20 6, ∀ b ∈ splitIntoGroups piles20 6,
      a.length ≤ b.length + 1)) :=
  ⟨by decide, C1_splitIntoGroups_sizes piles20 6 (by decide) (by decide)⟩

/-- C2: for every list and every group count g ≥ 1, the groups returned by splitIntoGroups,
concatenated in order, are exactly the input list (both in the singleton branch and in
the range branch). -/
theorem C2_splitIntoGroups_concat (piles : List String) (g : Nat) (hg : 1 ≤ g) :
    (splitIntoGroups piles g).flatten = piles :=
  splitIntoGroups_flatten piles g hg

/-- The witness of C2 on twenty identifiers and six groups. -/
theorem C2_splitIntoGroups_concat_witness :
    1 ≤ 6 ∧ (splitIntoGroups piles20 6).flatten = piles20 :=
  ⟨by decide, C2_splitIntoGroups_concat piles20 6 (by decide)⟩

/-- C3: when the list has at most g elements, splitIntoGroups returns one group per
element, the i-th being the one-element list holding the i-th identifier. -/
theorem C3_splitIntoGroups_singletons (piles : List String) (g : Nat)
    (hn : piles.length ≤ g) :
    (splitIntoGroups piles g).length = piles.length ∧
    ∀ i, i < piles.length → (splitIntoGroups piles g)[i]? = (piles[i]?).map fun p => [p] := by
  unfold splitIntoGroups
  rw [if_pos hn]
  exact ⟨by simp, fun i _ => by simp⟩

/-- The witness of C3: three identifiers and six groups. -/
theorem C3_splitIntoGroups_singletons_witness :
    splitIntoGroups ["P-1", "P-2", "P-3"] 6 = [["P-1"], ["P-2"], ["P-3"]] ∧
    ((splitIntoGroups ["P-1", "P-2", "P-3"] 6).length = ["P-1", "P-2", "P-3"].length ∧
    ∀ i, i < ["P-1", "P-2", "P-3"].length →
      (splitIntoGroups ["P-1", "P-2", "P-3"] 6)[i]? =
        (["P-1", "P-2", "P-3"][i]?).map fun p => [p]) :=
  ⟨by decide, C3_splitIntoGroups_singletons ["P-1", "P-2", "P-3"] 6 (by decide)⟩

/-! ## Lists and labels -/

theorem append_cons_inj_first {α : Type} {a : α} :
    ∀ {x₁ x₂ z₁ z₂ : List α}, a ∉ x₁ → a ∉ x₂ → x₁ ++ a :: z₁ = x₂ ++ a :: z₂ →
      x₁ = x₂ ∧ z₁ = z₂ := by
  intro x₁
  induction x₁ with
  | nil =>
    intro x₂ z₁ z₂ _ h2 e
    cases x₂ with
    | nil => simpa using e
    | cons c x₂ =>
      simp only [List.nil_append, List.cons_append, List.cons.injEq] at e
      exact absurd (e.1 ▸ List.mem_cons_self _ _) h2
  | cons b x₁ ih =>
    intro x₂ z₁ z₂ h1 h2 e
    cases x₂ with
    | nil =>
      simp only [List.nil_append, List.cons_append, List.cons.injEq] at e
      exact absurd (e.1 ▸ List.mem_cons_self _ _) h1
    | cons c x₂ =>
      simp only [List.cons_append, List.cons.injEq] at e
      have h1' : a ∉ x₁ := fun h => h1 (List.mem_cons_of_mem _ h)
      have h2' : a ∉ x₂ := fun h => h2 (List.mem_cons_of_mem _ h)
      obtain ⟨r1, r2⟩ := ih h1' h2' e.2
      exact ⟨by rw [e.1, r1], r2⟩

theorem nodup_split_first {L s u s' u' : List String} {a : String} (nd : L.Nodup)
    (e : s ++ a :: u = L) (e' : s' ++ a :: u' = L) : s = s' ∧ u = u' := by
  have nd1 : (s ++ a :: u).Nodup := e ▸ nd
  have nd2 : (s' ++ a :: u').Nodup := e' ▸ nd
  have m1 : a ∉ s := fun h =>
    (List.nodup_cons.mp (List.nodup_middle.mp nd1)).1 (List.mem_append_left _ h)
  have m2 : a ∉ s' := fun h =>
    (List.nodup_cons.mp (List.nodup_middle.mp nd2)).1 (List.mem_append_left _ h)
  exact append_cons_inj_first m1 m2 (e.trans e'.symm)

/-- A contiguous part of a duplicate-free list is determined by its first and last
element. -/
theorem infix_eq_of_nodup {L g g' : List String} {a b : String} (nd : L.Nodup)
    (hg : g <:+: L) (hg' : g' <:+: L)
    (hh : g.head? = some a) (hh' : g'.head? = some a)
    (hl : g.getLast? = some b) (hl' : g'.getLast? = some b) : g = g' := by
  obtain ⟨s, t, e⟩ := hg
  obtain ⟨s', t', e'⟩ := hg'
  obtain ⟨u, rfl⟩ : ∃ u, g = a :: u := by
    cases g with
    | nil => simp at hh
    | cons x u => simp at hh; exact ⟨u, by rw [hh]⟩
  obtain ⟨u', rfl⟩ : ∃ u', g' = a :: u' := by
    cases g' with
    | nil => simp at hh'
    | cons x u' => simp at hh'; exact ⟨u', by rw [hh']⟩
  have eL : s ++ a :: (u ++ t) = L := by rw [← e]; simp
  have eL' : s' ++ a :: (u' ++ t') = L := by rw [← e']; simp
  obtain ⟨_, htail⟩ := nodup_split_first nd eL eL'
  obtain ⟨v, hv⟩ := List.getLast?_eq_some_iff.mp hl
  obtain ⟨v', hv'⟩ := List.getLast?_eq_some_iff.mp hl'
  have ndM : (a :: (u ++ t)).Nodup := by
    have : (s ++ a :: (u ++ t)).Nodup := eL ▸ nd
    exact (List.nodup_append.mp this).2.1
  have eM : v ++ b :: t = a :: (u ++ t) := by
    have : a :: (u ++ t) = (a :: u) ++ t := rfl
    rw [this, hv]; simp
  have eM' : v' ++ b :: t' = a :: (u ++ t) := by
    have : a :: (u ++ t) = (a :: u') ++ t' := by rw [htail]; rfl
    rw [this, hv']; simp
  obtain ⟨hvv, _⟩ := nodup_split_first ndM eM eM'
  rw [hv, hv', hvv]

theorem rangeLabel_data (a b : String) :
    (rangeLabel a b).data = a.data ++ '.' :: '.' :: b.data := by
  simp [rangeLabel, String.data_append]

theorem rangeLabel_inj {a b a' b' : String} (ha : dotFree a) (ha' : dotFree a')
    (e : rangeLabel a b = rangeLabel a' b') : a = a' ∧ b = b' := by
  have e1 := congrArg String.data e
  rw [rangeLabel_data, rangeLabel_data] at e1
  obtain ⟨h1, h2⟩ := append_cons_inj_first ha ha' e1
  simp only [List.cons.injEq, true_and] at h2
  exact ⟨String.ext h1, String.ext h2⟩

theorem containsChars_dots_append (x z : List Char) :
    containsChars ['.', '.'] (x ++ '.' :: '.' :: z) = true := by
  induction x with
  | nil => simp [containsChars, List.isPrefixOf]
  | cons c x ih => simp [containsChars, ih]

theorem containsChars_dots_of_not_mem (x : List Char) (h : '.' ∉ x) :
    containsChars ['.', '.'] x = false := by
  induction x with
  | nil => simp [containsChars]
  | cons c x ih =>
    have hc : c ≠ '.' := fun e => h (e ▸ List.mem_cons_self _ _)
    have hx : '.' ∉ x := fun m => h (List.mem_cons_of_mem _ m)
    have hc' : ('.' == c) = false := by simpa using fun e => hc e.symm
    simp [containsChars, List.isPrefixOf, ih hx, hc']

theorem stringsContains_rangeLabel (a b : String) :
    stringsContains (rangeLabel a b) ".." = true := by
  unfold stringsContains
  rw [rangeLabel_data]
  exact containsChars_dots_append _ _

theorem stringsContains_dotFree (p : String) (h : dotFree p) :
    stringsContains p ".." = false :=
  containsChars_dots_of_not_mem _ h

theorem groupLabel_of_ne_nil {g : List String} (hne : g ≠ []) :
    ∃ a b, g.head? = some a ∧ g.getLast? = some b ∧ groupLabel g = some (rangeLabel a b) := by
  cases g with
  | nil => exact absurd rfl hne
  | cons a r =>
    exact ⟨a, (a :: r).getLast (List.cons_ne_nil _ _), rfl, List.getLast?_eq_getLast _ _, rfl⟩

theorem groupLabel_some {g : List String} {l : String} (h : groupLabel g = some l) :
    ∃ a b, g.head? = some a ∧ g.getLast? = some b ∧ l = rangeLabel a b := by
  cases g with
  | nil => simp [groupLabel] at h
  | cons a r =>
    simp only [groupLabel, Option.some.injEq] at h
    exact ⟨a, (a :: r).getLast (List.cons_ne_nil _ _), rfl, List.getLast?_eq_getLast _ _, h.symm⟩

theorem findSelectedGroup_some {H : List (List String)} {sel : String} {grp : List String}
    (h : findSelectedGroup H sel = some grp) : grp ∈ H ∧ groupLabel grp = some sel := by
  induction H with
  | nil => simp [findSelectedGroup] at h
  | cons g rest ih =>
    unfold findSelectedGroup at h
    split at h
    · obtain ⟨h1, h2⟩ := ih h
      exact ⟨List.mem_cons_of_mem _ h1, h2⟩
    · rename_i l hl
      split at h
      · rename_i e
        simp only [Option.some.injEq] at h
        subst h
        exact ⟨List.mem_cons_self _ _, by rw [hl, e]⟩
      · obtain ⟨h1, h2⟩ := ih h
        exact ⟨List.mem_cons_of_mem _ h1, h2⟩

theorem findSelectedGroup_found {H : List (List String)} {sel : String} {grp : List String}
    (hm : grp ∈ H) (hl : groupLabel grp = some sel) :
    ∃ grp', findSelectedGroup H sel = some grp' := by
  induction H with
  | nil => simp at hm
  | cons g rest ih =>
    unfold findSelectedGroup
    rcases List.mem_cons.mp hm with rfl | hm'
    · rw [hl]; simp
    · split
      · exact ih hm'
      · split
        · exact ⟨_, rfl⟩
        · exact ih hm'

/-! ## Groups are contiguous, non-empty and shorter than the list they split -/

theorem slice_contiguous (piles : List String) (a b : Nat) : slice piles a b <:+: piles :=
  (List.take_prefix _ _).isInfix.trans (List.drop_suffix _ _).isInfix

theorem splitLoop_mem_contiguous (piles : List String) (gs r : Nat) :
    ∀ count i start, ∀ grp ∈ splitLoop piles gs r count i start, grp <:+: piles := by
  intro count
  induction count with
  | zero => intro i start grp h; simp [splitLoop] at h
  | succ k ih =>
    intro i start grp h
    simp only [splitLoop, List.mem_cons] at h
    rcases h with rfl | h
    · exact slice_contiguous _ _ _
    · exact ih _ _ _ h

theorem splitIntoGroups_mem_contiguous (piles : List String) (g : Nat) :
    ∀ grp ∈ splitIntoGroups piles g, grp <:+: piles := by
  intro grp h
  unfold splitIntoGroups at h
  split at h
  · obtain ⟨p, hp, rfl⟩ := List.mem_map.mp h
    obtain ⟨s, t, rfl⟩ := List.append_of_mem hp
    exact ⟨s, t, by simp⟩
  · exact splitLoop_mem_contiguous _ _ _ _ _ _ _ h

theorem splitIntoGroups_mem_length (piles : List String) (g : Nat) (hg : 1 ≤ g)
    (hn : g < piles.length) :
    ∀ grp ∈ splitIntoGroups piles g,
      grp.length = piles.length / g ∨ grp.length = piles.length / g + 1 := by
  intro a ha
  have : a.length ∈ (splitIntoGroups piles g).map List.length := List.mem_map_of_mem _ ha
  rw [splitIntoGroups_map_length piles g hg hn, List.mem_map] at this
  obtain ⟨j, _, hj⟩ := this
  split at hj <;> omega

theorem splitIntoGroups_six_length (piles : List String) (hn : GroupsCount < piles.length) :
    ∀ grp ∈ splitIntoGroups piles GroupsCount, 1 ≤ grp.length ∧ grp.length < piles.length := by
  intro grp h
  have hn' : 6 < piles.length := hn
  have := splitIntoGroups_mem_length piles 6 (by decide) hn' grp h
  omega

/-! ## Frame lemmas for the handlers -/

theorem showPileGroups_state (s : UserState) (piles : List String) :
    (showPileGroups s piles).1 =
      { s with SelectionHistory := s.SelectionHistory ++
          (if piles.length ≤ GroupsCount then [] else splitIntoGroups piles GroupsCount) } := by
  unfold showPileGroups showSinglePiles
  split <;> simp

theorem showPileGroups_flat (s : UserState) (piles : List String)
    (h : piles.length ≤ GroupsCount) :
    showPileGroups s piles =
      (s, [Effect.keyboard "Выберите номер сваи:" (piles.map fun pile => [pile])]) := by
  unfold showPileGroups showSinglePiles
  rw [if_pos h]

theorem showPileGroups_offered (s : UserState) (piles : List String) (rows : List (List String))
    (h : Effect.keyboard "Выберите номер сваи:" rows ∈ (showPileGroups s piles).2) :
    rows = piles.map fun pile => [pile] := by
  unfold showPileGroups showSinglePiles at h
  split at h
  · simpa using h
  · simp at h

theorem histOK_showPileGroups (s : UserState) (piles : List String) (hs : histOK s)
    (hp : piles <:+: s.AvailablePiles) : histOK (showPileGroups s piles).1 := by
  rw [showPileGroups_state]
  intro grp hgrp
  simp only [List.mem_append] at hgrp
  rcases hgrp with h | h
  · exact hs grp h
  · split at h
    · simp at h
    · rename_i hlen
      have hlen' : GroupsCount < piles.length := by omega
      have h1 := splitIntoGroups_six_length piles hlen' grp h
      refine ⟨?_, (splitIntoGroups_mem_contiguous _ _ grp h).trans hp⟩
      intro e; rw [e] at h1; simp at h1

theorem startNewRecord_eq (s : UserState) (fetched : List String) :
    startNewRecord s fetched =
      if fetched.length = 0 then
        ({ WaitingFor := s.WaitingFor, CurrentRecord := zeroRecord, AvailablePiles := fetched,
           SelectionHistory := [] }, sendMessage "Нет доступных свай для забивки.")
      else
        showPileGroups
          { WaitingFor := "pileNumber", CurrentRecord := zeroRecord, AvailablePiles := fetched,
            SelectionHistory := [] } fetched := rfl

theorem histOK_startNewRecord (s : UserState) (fetched : List String) :
    histOK (startNewRecord s fetched).1 := by
  rw [startNewRecord_eq]
  split
  · intro grp h; simp at h
  · apply histOK_showPileGroups
    · intro grp h; simp at h
    · exact List.infix_refl _

theorem histOK_handlePileNumberSelection (s : UserState) (text : String) (hs : histOK s) :
    histOK (handlePileNumberSelection s text).1 := by
  unfold handlePileNumberSelection
  split
  · split
    · exact hs
    · rename_i grp hf
      exact histOK_showPileGroups s grp hs (hs grp (findSelectedGroup_some hf).1).2
  · split
    · exact hs
    · exact hs

theorem histOK_processUserInput (now : WallClock) (s : UserState) (text : String)
    (hs : histOK s) : histOK (processUserInput now s text).1 := by
  unfold processUserInput
  split
  · exact histOK_handlePileNumberSelection s text hs
  · split
    · unfold handleDrivingDateSelection
      split
      · exact hs
      · split <;> exact hs
    · split
      · unfold handlePileTopLevelInput
        split <;> exact hs
      · split
        · unfold handleOperatorNameInput
          simp only
          split <;> exact hs
        · exact hs

theorem histOK_handleUpdate (s : UserState) (u : Update) (hs : histOK s) :
    histOK (handleUpdate s u).1 := by
  unfold handleUpdate
  split
  · exact hs
  · split
    · exact hs
    · split
      · exact histOK_startNewRecord _ _
      · exact histOK_processUserInput _ _ _ hs

theorem runUpdates_invariant (P : UserState → Prop)
    (hstep : ∀ s u, P s → P (handleUpdate s u).1) :
    ∀ (us : List Update) (s : UserState), P s → P (runUpdates s us) := by
  intro us
  induction us with
  | nil => intro s h; exact h
  | cons u us ih => intro s h; exact ih _ (hstep s u h)

theorem histOK_runUpdates (us : List Update) : histOK (runUpdates emptyState us) :=
  runUpdates_invariant histOK histOK_handleUpdate us emptyState (by intro grp h; simp [emptyState] at h)

/-! ## Group labels and the selection history -/

theorem roundtrip_of_contiguous {L : List String} {H : List (List String)} (nd : L.Nodup)
    (df : ∀ p ∈ L, dotFree p) (hH : ∀ grp ∈ H, grp ≠ [] ∧ grp <:+: L)
    {G : List String} (hG : G ∈ H) :
    ∃ l, groupLabel G = some l ∧ findSelectedGroup H l = some G := by
  obtain ⟨a, b, hh, hl, hlab⟩ := groupLabel_of_ne_nil (hH G hG).1
  refine ⟨rangeLabel a b, hlab, ?_⟩
  obtain ⟨G', hf⟩ := findSelectedGroup_found hG hlab
  obtain ⟨hm, hlab'⟩ := findSelectedGroup_some hf
  obtain ⟨a', b', hh', hl', e⟩ := groupLabel_some hlab'
  have ha : dotFree a := df a ((hH G hG).2.subset (List.mem_of_mem_head? hh))
  have ha' : dotFree a' := df a' ((hH G' hm).2.subset (List.mem_of_mem_head? hh'))
  obtain ⟨e1, e2⟩ := rangeLabel_inj ha ha' e
  subst e1 e2
  rw [hf, infix_eq_of_nodup nd (hH G' hm).2 (hH G hG).2 hh' hh hl' hl]

/-- C4 (amended): in every session state reached from the empty session, if the candidate
list consists of pairwise distinct identifiers without the character `.`, then every group
recorded in SelectionHistory has a label, and findSelectedGroup on that label returns
exactly that group. -/
theorem C4_label_roundtrip_distinct (us : List Update)
    (nd : (runUpdates emptyState us).AvailablePiles.Nodup)
    (df : ∀ p ∈ (runUpdates emptyState us).AvailablePiles, dotFree p)
    (G : List String) (hG : G ∈ (runUpdates emptyState us).SelectionHistory) :
    ∃ l, groupLabel G = some l ∧
      findSelectedGroup (runUpdates emptyState us).SelectionHistory l = some G :=
  roundtrip_of_contiguous nd df (histOK_runUpdates us) hG

/-- The witness of C4 (amended): after /newrecord with P-1..P-20 the recorded group
P-5..P-8 is found again by its label. -/
theorem C4_label_roundtrip_distinct_witness :
    groupLabel ["P-5", "P-6", "P-7", "P-8"] = some "P-5..P-8" ∧
    ∃ l, groupLabel ["P-5", "P-6", "P-7", "P-8"] = some l ∧
      findSelectedGroup (runUpdates emptyState [newRecordUpdate piles20]).SelectionHistory l =
        some ["P-5", "P-6", "P-7", "P-8"] :=
  ⟨by decide, C4_label_roundtrip_distinct [newRecordUpdate piles20] (by decide) (by decide)
    ["P-5", "P-6", "P-7", "P-8"] (by decide)⟩

/-- C4 as stated fails: with a repeated identifier, and also with distinct identifiers
that contain dots, two recorded groups carry the same label and findSelectedGroup returns
the earlier one, not the group the label was made from. -/
theorem C4_label_roundtrip_counterexample :
    (["x"] ∈ splitIntoGroups dupPiles GroupsCount ∧
      ["x"] ∈ (runUpdates emptyState [newRecordUpdate dupPiles]).SelectionHistory ∧
      groupLabel ["x"] = some "x..x" ∧
      findSelectedGroup (runUpdates emptyState [newRecordUpdate dupPiles]).SelectionHistory "x..x"
        = some ["x", "x"]) ∧
    (dottedPiles.Nodup ∧
      ["a..b"] ∈ (runUpdates emptyState [newRecordUpdate dottedPiles]).SelectionHistory ∧
      groupLabel ["a..b"] = some "a..b..a..b" ∧
      findSelectedGroup (runUpdates emptyState [newRecordUpdate dottedPiles]).SelectionHistory
        "a..b..a..b" = some ["a", "b..a..b"]) := by
  decide

/-! ## The dialogue: what the code does in the notes step and on an empty fetch -/

/-- C5 (code defect): a session brought to the notes step (WaitingFor = "additionalInfo")
is not changed by a note or by /skip: processUserInput has no case for that step, answers
with the guidance message of the idle state, posts nothing, and the session stays in
"additionalInfo". -/
theorem C5_notes_step_not_handled :
    (runUpdates emptyState
      [newRecordUpdate ["P-1"], textUpdate "P-1", textUpdate "Сегодня", textUpdate "12750",
       textUpdate "/skip"]).WaitingFor = "additionalInfo" ∧
    (∀ (now : WallClock) (s : UserState) (text : String), s.WaitingFor = "additionalInfo" →
      processUserInput now s text =
        (s, sendMessage
          "Используйте /newrecord для начала новой записи или /help для справки.")) ∧
    (runUpdates emptyState
      [newRecordUpdate ["P-1"], textUpdate "P-1", textUpdate "Сегодня", textUpdate "12750",
       textUpdate "/skip", textUpdate "забита без замечаний"]).WaitingFor = "additionalInfo" ∧
    (runUpdates emptyState
      [newRecordUpdate ["P-1"], textUpdate "P-1", textUpdate "Сегодня", textUpdate "12750",
       textUpdate "/skip", textUpdate "/skip"]).WaitingFor = "additionalInfo" := by
  refine ⟨by decide, ?_, by decide, by decide⟩
  intro now s text h
  unfold processUserInput
  rw [h]
  rfl

/-- C6 (code defect): startNewRecord with an empty fetched list returns before it touches
WaitingFor, so the step is whatever it was; a session waiting for the date stays in
"drivingDate", with the record already cleared. -/
theorem C6_empty_fetch_keeps_step :
    (∀ s : UserState, (startNewRecord s []).1.WaitingFor = s.WaitingFor) ∧
    (runUpdates emptyState [newRecordUpdate ["P-1"], textUpdate "P-1"]).WaitingFor
      = "drivingDate" ∧
    (runUpdates emptyState
      [newRecordUpdate ["P-1"], textUpdate "P-1", newRecordUpdate []]).WaitingFor
      = "drivingDate" ∧
    (runUpdates emptyState
      [newRecordUpdate ["P-1"], textUpdate "P-1", newRecordUpdate []]).CurrentRecord
      = zeroRecord := by
  refine ⟨fun s => rfl, by decide, by decide, by decide⟩

/-! ## The history and the step -/

theorem showPileGroups_waiting (s : UserState) (piles : List String) :
    (showPileGroups s piles).1.WaitingFor = s.WaitingFor := by
  rw [showPileGroups_state]

theorem showPileGroups_record (s : UserState) (piles : List String) :
    (showPileGroups s piles).1.CurrentRecord = s.CurrentRecord := by
  rw [showPileGroups_state]

theorem showPileGroups_piles (s : UserState) (piles : List String) :
    (showPileGroups s piles).1.AvailablePiles = s.AvailablePiles := by
  rw [showPileGroups_state]

theorem handlePileNumberSelection_waiting (s : UserState) (text : String) :
    (handlePileNumberSelection s text).1.WaitingFor = s.WaitingFor ∨
      (handlePileNumberSelection s text).1.WaitingFor = "drivingDate" := by
  unfold handlePileNumberSelection
  split
  · split
    · exact Or.inl rfl
    · exact Or.inl (showPileGroups_waiting _ _)
  · split
    · exact Or.inl rfl
    · exact Or.inr rfl

theorem processUserInput_active (now : WallClock) (s : UserState) (text : String)
    (h : s.WaitingFor ∈ activeSteps) : (processUserInput now s text).1.WaitingFor ∈ activeSteps := by
  unfold processUserInput
  split
  · rcases handlePileNumberSelection_waiting s text with e | e
    · rw [e]; exact h
    · rw [e]; decide
  · split
    · unfold handleDrivingDateSelection
      split
      · simp [activeSteps]
      · split
        · simp [activeSteps]
        · exact h
    · split
      · unfold handlePileTopLevelInput
        split
        · exact h
        · simp [activeSteps]
      · split
        · unfold handleOperatorNameInput
          simp [activeSteps]
        · exact h

theorem processUserInput_idle (now : WallClock) (s : UserState) (text : String)
    (h : s.WaitingFor ∉ activeSteps) : (processUserInput now s text).1 = s := by
  have h1 : s.WaitingFor ≠ "pileNumber" := fun e => h (by rw [e]; decide)
  have h2 : s.WaitingFor ≠ "drivingDate" := fun e => h (by rw [e]; decide)
  have h3 : s.WaitingFor ≠ "pileTopLevel" := fun e => h (by rw [e]; decide)
  have h4 : s.WaitingFor ≠ "operatorName" := fun e => h (by rw [e]; decide)
  unfold processUserInput
  rw [if_neg h1, if_neg h2, if_neg h3, if_neg h4]

theorem startNewRecord_history_or_active (s : UserState) (fetched : List String) :
    (startNewRecord s fetched).1.SelectionHistory = [] ∨
      (startNewRecord s fetched).1.WaitingFor = "pileNumber" := by
  rw [startNewRecord_eq]
  split
  · exact Or.inl rfl
  · exact Or.inr (showPileGroups_waiting _ _)

theorem historyActive_handleUpdate (s : UserState) (u : Update)
    (hs : s.SelectionHistory ≠ [] → s.WaitingFor ∈ activeSteps) :
    (handleUpdate s u).1.SelectionHistory ≠ [] → (handleUpdate s u).1.WaitingFor ∈ activeSteps := by
  unfold handleUpdate
  split
  · exact hs
  · split
    · exact hs
    · split
      · intro hne
        rcases startNewRecord_history_or_active s u.fetched with e | e
        · exact absurd e hne
        · rw [e]; decide
      · by_cases ha : s.WaitingFor ∈ activeSteps
        · intro _
          exact processUserInput_active _ _ _ ha
        · rw [processUserInput_idle _ _ _ ha]
          exact hs

/-- C7 (amended): in every session state reached from the empty session by any sequence of
updates (/start, /help, /newrecord with any fetched list, arbitrary text), SelectionHistory
is non-empty only if a record flow is in progress, that is WaitingFor is one of
"pileNumber", "drivingDate", "pileTopLevel", "operatorName", "additionalInfo"; it is never
non-empty in the idle step. -/
theorem C7_history_only_in_flow (us : List Update)
    (hne : (runUpdates emptyState us).SelectionHistory ≠ []) :
    (runUpdates emptyState us).WaitingFor ∈ activeSteps :=
  runUpdates_invariant (fun s => s.SelectionHistory ≠ [] → s.WaitingFor ∈ activeSteps)
    historyActive_handleUpdate us emptyState (fun h => absurd rfl h) hne

/-- The witness of C7 (amended): after /newrecord with P-1..P-20 and the selection of P-1
the history is non-empty and the step is one of the flow. -/
theorem C7_history_only_in_flow_witness :
    (runUpdates emptyState [newRecordUpdate piles20, textUpdate "P-1"]).SelectionHistory ≠ [] ∧
    (runUpdates emptyState [newRecordUpdate piles20, textUpdate "P-1"]).WaitingFor ∈ activeSteps :=
  ⟨by decide, C7_history_only_in_flow [newRecordUpdate piles20, textUpdate "P-1"] (by decide)⟩

/-- C7 as stated fails: after /newrecord with P-1..P-20 and the input P-1 the pile is
accepted, the step is "drivingDate", and the history still holds the six groups recorded
by showPileGroups. -/
theorem C7_history_after_acceptance_counterexample :
    (runUpdates emptyState [newRecordUpdate piles20, textUpdate "P-1"]).WaitingFor
      = "drivingDate" ∧
    (runUpdates emptyState [newRecordUpdate piles20, textUpdate "P-1"]).CurrentRecord.PileNumber
      = "P-1" ∧
    (runUpdates emptyState [newRecordUpdate piles20, textUpdate "P-1"]).SelectionHistory
      = splitIntoGroups piles20 GroupsCount ∧
    (runUpdates emptyState [newRecordUpdate piles20, textUpdate "P-1"]).SelectionHistory ≠ [] := by
  decide

/-! ## Selection from a flat list -/

theorem contains_iff (l : List String) (x : String) : contains l x = true ↔ x ∈ l := by
  induction l with
  | nil => simp [contains]
  | cons a l ih =>
    unfold contains
    split
    · rename_i e; simp [e]
    · rename_i e
      rw [ih, List.mem_cons]
      constructor
      · exact Or.inr
      · rintro (h | h)
        · exact absurd h.symm e
        · exact h

theorem map_singleton_injective {a b : List String}
    (h : (a.map fun pile => [pile]) = b.map fun pile => [pile]) : a = b := by
  have := congrArg List.flatten h
  rwa [flatten_map_singleton, flatten_map_singleton] at this

theorem showPileGroups_flatOffered (s : UserState) (piles offered : List String)
    (h : flatOffered (showPileGroups s piles).2 offered) : offered = piles :=
  map_singleton_injective (showPileGroups_offered s piles _ h)

theorem handlePileNumberSelection_reject (s : UserState) (text : String)
    (h : contains s.AvailablePiles text = false ∨ stringsContains text ".." = true) :
    (handlePileNumberSelection s text).1.WaitingFor = s.WaitingFor ∧
      (handlePileNumberSelection s text).1.CurrentRecord = s.CurrentRecord := by
  unfold handlePileNumberSelection
  split
  · split
    · exact ⟨rfl, rfl⟩
    · exact ⟨showPileGroups_waiting _ _, showPileGroups_record _ _⟩
  · rename_i hc
    rcases h with h | h
    · simp [h]
    · exact absurd h hc

theorem handlePileNumberSelection_accept (s : UserState) (x : String)
    (hx : stringsContains x ".." = false) (hm : x ∈ s.AvailablePiles) :
    (handlePileNumberSelection s x).1.CurrentRecord.PileNumber = x ∧
      (handlePileNumberSelection s x).1.WaitingFor = "drivingDate" := by
  have hc : contains s.AvailablePiles x = true := (contains_iff _ _).mpr hm
  unfold handlePileNumberSelection
  simp [hx, hc]

theorem processUserInput_pileNumber (now : WallClock) (s : UserState) (text : String)
    (h : s.WaitingFor = "pileNumber") :
    processUserInput now s text = handlePileNumberSelection s text := by
  unfold processUserInput
  rw [if_pos h]

/-- When handling an update ends with a flat list on offer, the session waits for a pile
number and every offered identifier is one of the session's candidates. -/
theorem flatOffered_handleUpdate (s : UserState) (u : Update) (offered : List String)
    (hs : histOK s) (h : flatOffered (handleUpdate s u).2 offered) :
    (handleUpdate s u).1.WaitingFor = "pileNumber" ∧
      ∀ x ∈ offered, x ∈ (handleUpdate s u).1.AvailablePiles := by
  unfold handleUpdate at h ⊢
  split
  · rename_i e; simp [e, flatOffered, sendMessage] at h
  · split
    · rename_i e1 e2; simp [e1, e2, flatOffered, sendMessage] at h
    · split
      · rename_i e1 e2 e3
        simp only [e1, e2, e3, if_false, if_true] at h
        rw [startNewRecord_eq] at h ⊢
        split
        · rename_i e4; simp [e4, flatOffered, sendMessage] at h
        · rename_i e4
          rw [if_neg e4] at h
          have := showPileGroups_flatOffered _ _ _ h
          subst this
          refine ⟨by rw [showPileGroups_waiting], ?_⟩
          intro x hx
          rw [showPileGroups_piles]
          exact hx
      · rename_i e1 e2 e3
        simp only [e1, e2, e3, if_false] at h
        unfold processUserInput at h ⊢
        split
        · rename_i w
          rw [if_pos w] at h
          unfold handlePileNumberSelection at h ⊢
          split
          · rename_i c
            rw [if_pos c] at h
            split
            · rename_i f; simp [f, flatOffered, sendMessage] at h
            · rename_i grp f
              simp only [f] at h
              have := showPileGroups_flatOffered _ _ _ h
              subst this
              refine ⟨by rw [showPileGroups_waiting]; exact w, ?_⟩
              intro x hx
              rw [showPileGroups_piles]
              exact (hs _ (findSelectedGroup_some f).1).2.subset hx
          · rename_i c
            rw [if_neg c] at h
            split
            · rename_i f; simp [f, flatOffered, sendMessage] at h
            · rename_i f; simp [f, flatOffered, sendDateSelection] at h
        · rename_i w
          rw [if_neg w] at h
          split
          · rename_i w2
            rw [if_pos w2] at h
            unfold handleDrivingDateSelection at h
            simp only [flatOffered] at h
            split at h
            · simp at h
            · split at h
              · simp at h
              · simp [sendMessage, sendDateSelection] at h
          · rename_i w2
            rw [if_neg w2] at h
            split
            · rename_i w3
              rw [if_pos w3] at h
              unfold handlePileTopLevelInput at h
              simp only [flatOffered] at h
              split at h <;> simp [sendMessage] at h
            · rename_i w3
              rw [if_neg w3] at h
              split
              · rename_i w4
                rw [if_pos w4] at h
                simp [handleOperatorNameInput, flatOffered, sendMessage] at h
              · rename_i w4
                rw [if_neg w4] at h
                simp [flatOffered, sendMessage] at h

theorem recordFresh_handlePileNumberSelection (s : UserState) (text : String)
    (hs : recordFresh s) (hw : s.WaitingFor = "pileNumber") :
    recordFresh (handlePileNumberSelection s text).1 := by
  unfold handlePileNumberSelection
  split
  · split
    · exact hs
    · intro _
      rw [showPileGroups_record]
      exact hs hw
  · split
    · exact hs
    · intro h
      simp at h

theorem recordFresh_processUserInput (now : WallClock) (s : UserState) (text : String)
    (hs : recordFresh s) : recordFresh (processUserInput now s text).1 := by
  unfold processUserInput
  split
  · rename_i w
    exact recordFresh_handlePileNumberSelection s text hs w
  · rename_i w
    split
    · unfold handleDrivingDateSelection
      split
      · intro h; simp at h
      · split
        · intro h; simp at h
        · exact hs
    · split
      · unfold handlePileTopLevelInput
        split
        · exact hs
        · intro h; simp at h
      · split
        · unfold handleOperatorNameInput
          intro h; simp at h
        · exact hs

theorem recordFresh_startNewRecord (s : UserState) (fetched : List String) :
    recordFresh (startNewRecord s fetched).1 := by
  rw [startNewRecord_eq]
  split
  · intro _; rfl
  · intro _
    rw [showPileGroups_record]

theorem recordFresh_handleUpdate (s : UserState) (u : Update) (hs : recordFresh s) :
    recordFresh (handleUpdate s u).1 := by
  unfold handleUpdate
  split
  · exact hs
  · split
    · exact hs
    · split
      · exact recordFresh_startNewRecord _ _
      · exact recordFresh_processUserInput _ _ _ hs

theorem recordFresh_runUpdates (us : List Update) : recordFresh (runUpdates emptyState us) :=
  runUpdates_invariant recordFresh recordFresh_handleUpdate us emptyState (fun _ => rfl)

/-- C9 (amended): in a session reached from the empty session, once handling an update
has ended with a flat list on offer, every input text that is not a member of the
session's candidate list AvailablePiles is rejected: the step stays "pileNumber" and
CurrentRecord.PileNumber stays unset (the record is unchanged). -/
theorem C9_flat_list_rejects_non_candidates (us : List Update) (u : Update)
    (offered : List String)
    (hoff : flatOffered (handleUpdate (runUpdates emptyState us) u).2 offered)
    (now : WallClock) (text : String)
    (hnot : text ∉ (handleUpdate (runUpdates emptyState us) u).1.AvailablePiles) :
    (processUserInput now (handleUpdate (runUpdates emptyState us) u).1 text).1.WaitingFor
      = "pileNumber" ∧
    (processUserInput now (handleUpdate (runUpdates emptyState us) u).1 text).1.CurrentRecord.PileNumber
      = "" ∧
    (processUserInput now (handleUpdate (runUpdates emptyState us) u).1 text).1.CurrentRecord
      = (handleUpdate (runUpdates emptyState us) u).1.CurrentRecord := by
  have hw := (flatOffered_handleUpdate _ u offered (histOK_runUpdates us) hoff).1
  have hfresh := recordFresh_handleUpdate _ u (recordFresh_runUpdates us) hw
  have hc : contains (handleUpdate (runUpdates emptyState us) u).1.AvailablePiles text = false := by
    cases hcon : contains (handleUpdate (runUpdates emptyState us) u).1.AvailablePiles text with
    | false => rfl
    | true => exact absurd ((contains_iff _ _).mp hcon) hnot
  obtain ⟨h1, h2⟩ := handlePileNumberSelection_reject _ text (Or.inl hc)
  rw [processUserInput_pileNumber _ _ _ hw]
  refine ⟨h1.trans hw, ?_, h2⟩
  rw [h2, hfresh]
  rfl

/-- The witness of C9 (amended): candidates P-1..P-20, the flat list P-5..P-8 on offer,
and the input "P-21", which is no candidate. -/
theorem C9_flat_list_rejects_non_candidates_witness :
    (processUserInput clock0
      (handleUpdate (runUpdates emptyState [newRecordUpdate piles20]) (textUpdate "P-5..P-8")).1
      "P-21").1.WaitingFor = "pileNumber" ∧
    (processUserInput clock0
      (handleUpdate (runUpdates emptyState [newRecordUpdate piles20]) (textUpdate "P-5..P-8")).1
      "P-21").1.CurrentRecord.PileNumber = "" ∧
    (processUserInput clock0
      (handleUpdate (runUpdates emptyState [newRecordUpdate piles20]) (textUpdate "P-5..P-8")).1
      "P-21").1.CurrentRecord
      = (handleUpdate (runUpdates emptyState [newRecordUpdate piles20])
          (textUpdate "P-5..P-8")).1.CurrentRecord :=
  C9_flat_list_rejects_non_candidates [newRecordUpdate piles20] (textUpdate "P-5..P-8")
    ["P-5", "P-6", "P-7", "P-8"] (by unfold flatOffered; decide) clock0 "P-21" (by decide)

/-- C9 as stated fails: with candidates P-1..P-20 and the flat list P-5..P-8 on offer, the
input "P-20" is not one of the offered identifiers, yet it is accepted: PileNumber becomes
"P-20" and the step advances to "drivingDate". -/
theorem C9_flat_list_counterexample :
    (handleUpdate (runUpdates emptyState [newRecordUpdate piles20]) (textUpdate "P-5..P-8")).2
      = [Effect.keyboard "Выберите номер сваи:" [["P-5"], ["P-6"], ["P-7"], ["P-8"]]] ∧
    (handleUpdate (runUpdates emptyState [newRecordUpdate piles20]) (textUpdate "P-5..P-8")).1.WaitingFor
      = "pileNumber" ∧
    "P-20" ∉ ["P-5", "P-6", "P-7", "P-8"] ∧
    (runUpdates emptyState
      [newRecordUpdate piles20, textUpdate "P-5..P-8", textUpdate "P-20"]).WaitingFor
      = "drivingDate" ∧
    (runUpdates emptyState
      [newRecordUpdate piles20, textUpdate "P-5..P-8", textUpdate "P-20"]).CurrentRecord.PileNumber
      = "P-20" := by
  decide

/-- C10 (amended): in a session reached from the empty session, once handling an update
has ended with a flat list on offer, every offered identifier x that does not contain ".."
is accepted by processUserInput: CurrentRecord.PileNumber becomes x and the step advances
to "drivingDate". -/
theorem C10_flat_list_accepts_offered (us : List Update) (u : Update)
    (offered : List String)
    (hoff : flatOffered (handleUpdate (runUpdates emptyState us) u).2 offered)
    (now : WallClock) (x : String) (hx : x ∈ offered)
    (hdots : stringsContains x ".." = false) :
    (processUserInput now (handleUpdate (runUpdates emptyState us) u).1 x).1.CurrentRecord.PileNumber
      = x ∧
    (processUserInput now (handleUpdate (runUpdates emptyState us) u).1 x).1.WaitingFor
      = "drivingDate" := by
  obtain ⟨hw, hsub⟩ := flatOffered_handleUpdate _ u offered (histOK_runUpdates us) hoff
  rw [processUserInput_pileNumber _ _ _ hw]
  exact handlePileNumberSelection_accept _ x hdots (hsub x hx)

/-- The witness of C10 (amended): candidates P-1..P-20, the flat list P-5..P-8 on offer,
and the input "P-7". -/
theorem C10_flat_list_accepts_offered_witness :
    (processUserInput clock0
      (handleUpdate (runUpdates emptyState [newRecordUpdate piles20]) (textUpdate "P-5..P-8")).1
      "P-7").1.CurrentRecord.PileNumber = "P-7" ∧
    (processUserInput clock0
      (handleUpdate (runUpdates emptyState [newRecordUpdate piles20]) (textUpdate "P-5..P-8")).1
      "P-7").1.WaitingFor = "drivingDate" :=
  C10_flat_list_accepts_offered [newRecordUpdate piles20] (textUpdate "P-5..P-8")
    ["P-5", "P-6", "P-7", "P-8"] (by unfold flatOffered; decide) clock0 "P-7" (by decide)
    (by decide)

/-- C10 as stated fails: with the single candidate "a..b" the flat list offers "a..b", but
the input "a..b" contains ".." and is looked up as a group label; no group is recorded, so
it is rejected: the step stays "pileNumber" and PileNumber stays empty. -/
theorem C10_dotted_identifier_counterexample :
    (handleUpdate emptyState (newRecordUpdate ["a..b"])).2
      = [Effect.keyboard "Выберите номер сваи:" [["a..b"]]] ∧
    "a..b" ∈ ["a..b"] ∧
    handleUpdate (runUpdates emptyState [newRecordUpdate ["a..b"]]) (textUpdate "a..b")
      = (runUpdates emptyState [newRecordUpdate ["a..b"]],
          sendMessage "Неверный выбор группы. Попробуйте еще раз.") ∧
    (runUpdates emptyState [newRecordUpdate ["a..b"], textUpdate "a..b"]).WaitingFor
      = "pileNumber" ∧
    (runUpdates emptyState [newRecordUpdate ["a..b"], textUpdate "a..b"]).CurrentRecord.PileNumber
      = "" := by
  decide

/-! ## Drill-down -/

theorem groupOf_exists (groups : List (List String)) (p : String) (h : p ∈ groups.flatten) :
    ∃ g, groupOf groups p = some g ∧ g ∈ groups ∧ p ∈ g := by
  unfold groupOf
  cases hf : groups.find? fun g => contains g p with
  | none =>
    rw [List.find?_eq_none] at hf
    obtain ⟨g, hg, hpg⟩ := List.mem_flatten.mp h
    exact absurd ((contains_iff g p).mpr hpg) (hf g hg)
  | some g =>
    have h1 := List.find?_some hf
    exact ⟨g, rfl, List.mem_of_find?_eq_some hf, (contains_iff g p).mp h1⟩

theorem handlePileNumberSelection_group (L : List String) (nd : L.Nodup)
    (df : ∀ q ∈ L, dotFree q) (s : UserState) (hL : s.AvailablePiles = L) (hs : histOK s)
    (g : List String) (hg : g ∈ s.SelectionHistory) (l : String) (hl : groupLabel g = some l) :
    handlePileNumberSelection s l = showPileGroups s g := by
  obtain ⟨l', hl', hf⟩ := roundtrip_of_contiguous nd df (fun grp h => hL ▸ hs grp h) hg
  rw [hl] at hl'
  simp only [Option.some.injEq] at hl'
  subst hl'
  obtain ⟨a, b, _, _, e⟩ := groupLabel_some hl
  have hc : stringsContains l ".." = true := by rw [e]; exact stringsContains_rangeLabel a b
  unfold handlePileNumberSelection
  rw [if_pos hc, hf]

theorem drill_reaches_flat (now : WallClock) (L : List String) (nd : L.Nodup)
    (df : ∀ q ∈ L, dotFree q) (p : String) :
    ∀ (fuel : Nat) (cur : List String) (s : UserState), cur.length ≤ fuel → p ∈ cur →
      cur <:+: s.AvailablePiles → s.AvailablePiles = L → histOK s →
      s.WaitingFor = "pileNumber" →
      ∃ G : List String,
        ((showPileGroups s cur).2 ++
            (runTexts now (showPileGroups s cur).1 (drillInputs fuel cur p)).2).getLast?
          = some (Effect.keyboard "Выберите номер сваи:" (G.map fun pile => [pile])) ∧
        p ∈ G ∧ G.length ≤ GroupsCount ∧ G <:+: L ∧
        (runTexts now (showPileGroups s cur).1 (drillInputs fuel cur p)).1.WaitingFor
          = "pileNumber" ∧
        (runTexts now (showPileGroups s cur).1 (drillInputs fuel cur p)).1.AvailablePiles = L := by
  intro fuel
  induction fuel with
  | zero =>
    intro cur s hlen hp _ _ _ _
    have : cur = [] := List.length_eq_zero.mp (by omega)
    rw [this] at hp
    simp at hp
  | succ fuel ih =>
    intro cur s hlen hp hinf hL hs hw
    by_cases hflat : cur.length ≤ GroupsCount
    · refine ⟨cur, ?_, hp, hflat, hL ▸ hinf, ?_, ?_⟩
      · simp [drillInputs, hflat, runTexts, showPileGroups_flat s cur hflat]
      · simp [drillInputs, hflat, runTexts, showPileGroups_flat s cur hflat, hw]
      · simp [drillInputs, hflat, runTexts, showPileGroups_flat s cur hflat, hL]
    · have hbig : GroupsCount < cur.length := by omega
      have hcover : p ∈ (splitIntoGroups cur GroupsCount).flatten := by
        rw [splitIntoGroups_flatten cur GroupsCount (by decide)]; exact hp
      obtain ⟨g, hgo, hgm, hpg⟩ := groupOf_exists _ p hcover
      have hglen := splitIntoGroups_six_length cur hbig g hgm
      have hgne : g ≠ [] := fun e => by rw [e] at hpg; simp at hpg
      obtain ⟨a, b, _, _, hlab⟩ := groupLabel_of_ne_nil hgne
      have hs' : histOK (showPileGroups s cur).1 := histOK_showPileGroups s cur hs hinf
      have hw' : (showPileGroups s cur).1.WaitingFor = "pileNumber" := by
        rw [showPileGroups_waiting]; exact hw
      have hL' : (showPileGroups s cur).1.AvailablePiles = L := by
        rw [showPileGroups_piles]; exact hL
      have hgh : g ∈ (showPileGroups s cur).1.SelectionHistory := by
        rw [showPileGroups_state]
        simp only [if_neg hflat]
        exact List.mem_append_right _ hgm
      have hginf : g <:+: (showPileGroups s cur).1.AvailablePiles := (hs' g hgh).2
      have hstep : processUserInput now (showPileGroups s cur).1 (rangeLabel a b)
          = showPileGroups (showPileGroups s cur).1 g := by
        rw [processUserInput_pileNumber _ _ _ hw']
        exact handlePileNumberSelection_group L nd df _ hL' hs' g hgh _ hlab
      have hin : drillInputs (fuel + 1) cur p = rangeLabel a b :: drillInputs fuel g p := by
        simp [drillInputs, hflat, hgo, hlab]
      obtain ⟨G, h1, h2, h3, h4, h5, h6⟩ :=
        ih g (showPileGroups s cur).1 (by omega) hpg hginf hL' hs' hw'
      refine ⟨G, ?_, h2, h3, h4, ?_, ?_⟩
      · rw [hin]
        simp only [runTexts, hstep]
        rw [List.getLast?_append, h1]
        rfl
      · rw [hin]
        simp only [runTexts, hstep]
        exact h5
      · rw [hin]
        simp only [runTexts, hstep]
        exact h6

/-- C8: for every candidate list of more than six pairwise distinct identifiers without
the character `.` and every identifier p of it, starting from startNewRecord and sending,
menu after menu, the label of the offered group that contains p, the dialogue ends after
finitely many inputs with a flat list of at most six identifiers on offer that contains p;
sending p then sets CurrentRecord.PileNumber to p and WaitingFor to "drivingDate". -/
theorem C8_drill_down_reaches_pile (s0 : UserState) (now : WallClock) (L : List String)
    (p : String) (hlen : GroupsCount < L.length) (nd : L.Nodup) (df : ∀ q ∈ L, dotFree q)
    (hp : p ∈ L) :
    ∃ G : List String,
      ((startNewRecord s0 L).2 ++
          (runTexts now (startNewRecord s0 L).1 (drillInputs L.length L p)).2).getLast?
        = some (Effect.keyboard "Выберите номер сваи:" (G.map fun pile => [pile])) ∧
      p ∈ G ∧ G.length ≤ GroupsCount ∧
      (processUserInput now
        (runTexts now (startNewRecord s0 L).1 (drillInputs L.length L p)).1 p).1.CurrentRecord.PileNumber
        = p ∧
      (processUserInput now
        (runTexts now (startNewRecord s0 L).1 (drillInputs L.length L p)).1 p).1.WaitingFor
        = "drivingDate" := by
  have hne : ¬ L.length = 0 := by
    have : 6 < L.length := hlen
    omega
  rw [startNewRecord_eq, if_neg hne]
  obtain ⟨G, h1, h2, h3, h4, h5, h6⟩ :=
    drill_reaches_flat now L nd df p L.length L
      { WaitingFor := "pileNumber", CurrentRecord := zeroRecord, AvailablePiles := L,
        SelectionHistory := [] }
      (Nat.le_refl _) hp (List.infix_refl _) rfl (by intro grp h; simp at h) rfl
  refine ⟨G, h1, h2, h3, ?_⟩
  rw [processUserInput_pileNumber _ _ _ h5]
  apply handlePileNumberSelection_accept
  · exact stringsContains_dotFree p (df p hp)
  · rw [h6]; exact hp

/-- The witness of C8: candidates P-1..P-20 and the pile P-7; the operator sends the one
label "P-5..P-8" and then "P-7". -/
theorem C8_drill_down_reaches_pile_witness :
    drillInputs piles20.length piles20 "P-7" = ["P-5..P-8"] ∧
    (processUserInput clock0
      (runTexts clock0 (startNewRecord emptyState piles20).1 ["P-5..P-8"]).1 "P-7").1.CurrentRecord.PileNumber
      = "P-7" ∧
    ∃ G : List String,
      ((startNewRecord emptyState piles20).2 ++
          (runTexts clock0 (startNewRecord emptyState piles20).1
            (drillInputs piles20.length piles20 "P-7")).2).getLast?
        = some (Effect.keyboard "Выберите номер сваи:" (G.map fun pile => [pile])) ∧
      "P-7" ∈ G ∧ G.length ≤ GroupsCount ∧
      (processUserInput clock0
        (runTexts clock0 (startNewRecord emptyState piles20).1
          (drillInputs piles20.length piles20 "P-7")).1 "P-7").1.CurrentRecord.PileNumber
        = "P-7" ∧
      (processUserInput clock0
        (runTexts clock0 (startNewRecord emptyState piles20).1
          (drillInputs piles20.length piles20 "P-7")).1 "P-7").1.WaitingFor
        = "drivingDate" :=
  ⟨by decide, by decide,
    C8_drill_down_reaches_pile emptyState clock0 piles20 "P-7" (by decide) (by decide)
      (by decide) (by decide)⟩

/-! ## The lookup of a group by its label -/

theorem findSelectedGroup_eq_find (H : List (List String)) (sel : String) :
    findSelectedGroup H sel = H.find? fun g => decide (groupLabel g = some sel) := by
  induction H with
  | nil => rfl
  | cons g rest ih =>
    unfold findSelectedGroup
    split
    · rename_i hl
      rw [List.find?_cons_of_neg _ (by simp [hl]), ih]
    · rename_i l hl
      split
      · rename_i e
        rw [List.find?_cons_of_pos _ (by simp [hl, e])]
      · rename_i e
        rw [List.find?_cons_of_neg _ (by simp [hl, e]), ih]

theorem findSelectedGroup_none_iff (H : List (List String)) (sel : String) :
    findSelectedGroup H sel = none ↔ ∀ g ∈ H, groupLabel g ≠ some sel := by
  rw [findSelectedGroup_eq_find, List.find?_eq_none]
  simp

/-- C17: findSelectedGroup returns nil exactly when no group of the history (an empty
group has no label) has the label equal to the selection; otherwise it returns the
earliest group of the history with that label, whatever menu recorded it, and the label
of the returned group is the selection. -/
theorem C17_findSelectedGroup_earliest_match (H : List (List String)) (sel : String) :
    (findSelectedGroup H sel = none ↔ ∀ g ∈ H, groupLabel g ≠ some sel) ∧
    (∀ g, findSelectedGroup H sel = some g →
      groupLabel g = some sel ∧
      ∃ before after, H = before ++ g :: after ∧ ∀ g' ∈ before, groupLabel g' ≠ some sel) ∧
    ((∃ g ∈ H, groupLabel g = some sel) → ∃ g, findSelectedGroup H sel = some g) := by
  refine ⟨findSelectedGroup_none_iff H sel, ?_, ?_⟩
  · intro g hg
    rw [findSelectedGroup_eq_find, List.find?_eq_some] at hg
    obtain ⟨h1, pre, post, h2, h3⟩ := hg
    refine ⟨by simpa using h1, pre, post, h2, ?_⟩
    intro g' hg'
    simpa using h3 g' hg'
  · rintro ⟨g, hg, hl⟩
    exact findSelectedGroup_found hg hl

/-- The witness of C17: in the history [[a,b],[],[c],[a,x,b]] the label "a..b" finds the
first group, although the last group carries the same label, and "c..d" finds nothing. -/
theorem C17_findSelectedGroup_earliest_match_witness :
    findSelectedGroup [["a", "b"], [], ["c"], ["a", "x", "b"]] "a..b" = some ["a", "b"] ∧
    findSelectedGroup [["a", "b"], [], ["c"], ["a", "x", "b"]] "c..d" = none ∧
    groupLabel ["a", "b"] = some "a..b" ∧
    ∃ before after, [["a", "b"], [], ["c"], ["a", "x", "b"]] = before ++ ["a", "b"] :: after ∧
      ∀ g' ∈ before, groupLabel g' ≠ some "a..b" :=
  ⟨by decide, by decide,
    ((C17_findSelectedGroup_earliest_match [["a", "b"], [], ["c"], ["a", "x", "b"]] "a..b").2.1
      ["a", "b"] (by decide)).1,
    ((C17_findSelectedGroup_earliest_match [["a", "b"], [], ["c"], ["a", "x", "b"]] "a..b").2.1
      ["a", "b"] (by decide)).2⟩

/-! ## Rejected input leaves the session as it is -/

/-- C12: (i) while a pile is selected, an input that contains ".." and is the label of no
recorded group, and (ii) while the date is selected, an input other than "Сегодня" and
"Вчера", leave the whole session state (WaitingFor, CurrentRecord, AvailablePiles,
SelectionHistory) exactly as it was. -/
theorem C12_rejected_menu_input_keeps_state (now : WallClock) (s : UserState) (text : String) :
    (s.WaitingFor = "pileNumber" → stringsContains text ".." = true →
      (∀ g ∈ s.SelectionHistory, groupLabel g ≠ some text) →
      (processUserInput now s text).1 = s) ∧
    (s.WaitingFor = "drivingDate" → text ≠ "Сегодня" → text ≠ "Вчера" →
      (processUserInput now s text).1 = s) := by
  constructor
  · intro hw hc hno
    rw [processUserInput_pileNumber _ _ _ hw]
    unfold handlePileNumberSelection
    rw [if_pos hc, (findSelectedGroup_none_iff _ _).mpr hno]
  · intro hw h1 h2
    unfold processUserInput
    rw [if_neg (by rw [hw]; decide), if_pos hw]
    unfold handleDrivingDateSelection
    simp only [if_neg h1, if_neg h2]

/-- The witness of C12: after /newrecord with P-1..P-20 the label "P-1..P-9" matches no
recorded group; after the selection of P-1 the text "Завтра" is none of the two dates. -/
theorem C12_rejected_menu_input_keeps_state_witness :
    (processUserInput clock0 (runUpdates emptyState [newRecordUpdate piles20]) "P-1..P-9").1
      = runUpdates emptyState [newRecordUpdate piles20] ∧
    (processUserInput clock0
      (runUpdates emptyState [newRecordUpdate piles20, textUpdate "P-1"]) "Завтра").1
      = runUpdates emptyState [newRecordUpdate piles20, textUpdate "P-1"] :=
  ⟨(C12_rejected_menu_input_keeps_state clock0 (runUpdates emptyState [newRecordUpdate piles20])
      "P-1..P-9").1 (by decide) (by decide) (by decide),
   (C12_rejected_menu_input_keeps_state clock0
      (runUpdates emptyState [newRecordUpdate piles20, textUpdate "P-1"]) "Завтра").2
      (by decide) (by decide) (by decide)⟩

/-! ## The elevation step -/

/-- C11 (code defect): in the elevation step the text "12abc" is not rejected: parseInt
reads the leading "12" and ignores the rest (likewise "1_000" is read as 1), so
FactPileHead becomes 12 and the step advances to "operatorName". A text without a leading
number, such as "abc", is rejected and leaves the session unchanged. -/
theorem C11_trailing_text_is_accepted :
    parseInt "12abc" = some 12 ∧
    parseInt "1_000" = some 1 ∧
    parseInt "12_" = some 12 ∧
    (runUpdates emptyState
      [newRecordUpdate ["P-1"], textUpdate "P-1", textUpdate "Сегодня"]).WaitingFor
      = "pileTopLevel" ∧
    (runUpdates emptyState
      [newRecordUpdate ["P-1"], textUpdate "P-1", textUpdate "Сегодня",
       textUpdate "12abc"]).WaitingFor = "operatorName" ∧
    (runUpdates emptyState
      [newRecordUpdate ["P-1"], textUpdate "P-1", textUpdate "Сегодня",
       textUpdate "12abc"]).CurrentRecord.FactPileHead = 12 ∧
    parseInt "abc" = none ∧
    (runUpdates emptyState
      [newRecordUpdate ["P-1"], textUpdate "P-1", textUpdate "Сегодня", textUpdate "abc"])
      = runUpdates emptyState
          [newRecordUpdate ["P-1"], textUpdate "P-1", textUpdate "Сегодня"] ∧
    (∀ (s : UserState) (text : String), parseInt text = none →
      (handlePileTopLevelInput s text).1 = s) := by
  refine ⟨by decide, by decide, by decide, by decide, by decide, by decide, by decide,
    by decide, ?_⟩
  intro s text h
  unfold handlePileTopLevelInput
  rw [h]

/-! ## The operator step -/

theorem operatorFresh_processUserInput (now : WallClock) (s : UserState) (text : String)
    (hs : operatorFresh s) : operatorFresh (processUserInput now s text).1 := by
  unfold processUserInput
  split
  · rename_i w
    have h0 : s.CurrentRecord.RecordedBy = "" := hs (by rw [w]; decide)
    intro _
    unfold handlePileNumberSelection
    split
    · split
      · exact h0
      · rw [showPileGroups_record]; exact h0
    · split
      · exact h0
      · exact h0
  · split
    · rename_i w
      have h0 : s.CurrentRecord.RecordedBy = "" := hs (by rw [w]; decide)
      intro _
      unfold handleDrivingDateSelection
      split
      · exact h0
      · split
        · exact h0
        · exact h0
    · split
      · rename_i w
        have h0 : s.CurrentRecord.RecordedBy = "" := hs (by rw [w]; decide)
        intro _
        unfold handlePileTopLevelInput
        split
        · exact h0
        · exact h0
      · split
        · intro h
          unfold handleOperatorNameInput at h
          simp at h
        · exact hs

theorem operatorFresh_startNewRecord (s : UserState) (fetched : List String) :
    operatorFresh (startNewRecord s fetched).1 := by
  rw [startNewRecord_eq]
  split
  · intro _; rfl
  · intro _
    rw [showPileGroups_record]
    rfl

theorem operatorFresh_handleUpdate (s : UserState) (u : Update) (hs : operatorFresh s) :
    operatorFresh (handleUpdate s u).1 := by
  unfold handleUpdate
  split
  · exact hs
  · split
    · exact hs
    · split
      · exact operatorFresh_startNewRecord _ _
      · exact operatorFresh_processUserInput _ _ _ hs

theorem operatorFresh_runUpdates (us : List Update) :
    operatorFresh (runUpdates emptyState us) :=
  runUpdates_invariant operatorFresh operatorFresh_handleUpdate us emptyState (fun _ => rfl)

/-- C13: in every session state reached from the empty session whose step is
"operatorName", the text "/skip" leaves CurrentRecord.RecordedBy empty and advances the
step to "additionalInfo"; any other text t sets RecordedBy to t and advances to the same
step. -/
theorem C13_operator_step (us : List Update) (now : WallClock)
    (hw : (runUpdates emptyState us).WaitingFor = "operatorName") :
    (processUserInput now (runUpdates emptyState us) "/skip").1.CurrentRecord.RecordedBy = "" ∧
    (processUserInput now (runUpdates emptyState us) "/skip").1.WaitingFor = "additionalInfo" ∧
    ∀ t : String, t ≠ "/skip" →
      (processUserInput now (runUpdates emptyState us) t).1.CurrentRecord.RecordedBy = t ∧
      (processUserInput now (runUpdates emptyState us) t).1.WaitingFor = "additionalInfo" := by
  have h0 : (runUpdates emptyState us).CurrentRecord.RecordedBy = "" :=
    operatorFresh_runUpdates us (by rw [hw]; decide)
  have hp : ∀ t, processUserInput now (runUpdates emptyState us) t
      = handleOperatorNameInput (runUpdates emptyState us) t := by
    intro t
    unfold processUserInput
    rw [if_neg (by rw [hw]; decide), if_neg (by rw [hw]; decide), if_neg (by rw [hw]; decide),
      if_pos hw]
  refine ⟨?_, ?_, ?_⟩
  · rw [hp]
    simp [handleOperatorNameInput, h0]
  · rw [hp]
    simp [handleOperatorNameInput]
  · intro t ht
    rw [hp]
    simp [handleOperatorNameInput, ht]

/-- The witness of C13: the session after /newrecord with [P-1], "P-1", "Сегодня" and
"12750" waits for the operator name. -/
theorem C13_operator_step_witness :
    (runUpdates emptyState
      [newRecordUpdate ["P-1"], textUpdate "P-1", textUpdate "Сегодня", textUpdate "12750",
       textUpdate "Иванов"]).CurrentRecord.RecordedBy = "Иванов" ∧
    ((processUserInput clock0
      (runUpdates emptyState
        [newRecordUpdate ["P-1"], textUpdate "P-1", textUpdate "Сегодня", textUpdate "12750"])
      "/skip").1.CurrentRecord.RecordedBy = "" ∧
    (processUserInput clock0
      (runUpdates emptyState
        [newRecordUpdate ["P-1"], textUpdate "P-1", textUpdate "Сегодня", textUpdate "12750"])
      "/skip").1.WaitingFor = "additionalInfo" ∧
    ∀ t : String, t ≠ "/skip" →
      (processUserInput clock0
        (runUpdates emptyState
          [newRecordUpdate ["P-1"], textUpdate "P-1", textUpdate "Сегодня", textUpdate "12750"])
        t).1.CurrentRecord.RecordedBy = t ∧
      (processUserInput clock0
        (runUpdates emptyState
          [newRecordUpdate ["P-1"], textUpdate "P-1", textUpdate "Сегодня", textUpdate "12750"])
        t).1.WaitingFor = "additionalInfo") :=
  ⟨by decide,
    C13_operator_step
      [newRecordUpdate ["P-1"], textUpdate "P-1", textUpdate "Сегодня", textUpdate "12750"]
      clock0 (by decide)⟩

/-! ## Submission and restart -/

/-- C14 (amended): for every session state and every answer of the backend (status 200 or
any other status), sendDataToWebService ends with WaitingFor = "" and an empty
SelectionHistory; CurrentRecord and AvailablePiles are left as they were. -/
theorem C14_response_resets_step_and_history (s : UserState) (statusCode : Nat)
    (status : String) :
    (sendDataToWebService s (PostOutcome.response statusCode status)).1.WaitingFor = "" ∧
    (sendDataToWebService s (PostOutcome.response statusCode status)).1.SelectionHistory = [] ∧
    (sendDataToWebService s (PostOutcome.response statusCode status)).1.CurrentRecord
      = s.CurrentRecord ∧
    (sendDataToWebService s (PostOutcome.response statusCode status)).1.AvailablePiles
      = s.AvailablePiles :=
  ⟨rfl, rfl, rfl, rfl⟩

/-- C14 as stated fails: after HTTP 200 the record of the session still holds the pile
number and the elevation that were submitted, and after a transport error nothing is
reset at all. -/
theorem C14_record_kept_counterexample :
    (sendDataToWebService
      (runUpdates emptyState
        [newRecordUpdate piles20, textUpdate "P-1", textUpdate "Сегодня", textUpdate "12750",
         textUpdate "/skip"])
      (PostOutcome.response 200 "200 OK")).1.CurrentRecord.PileNumber = "P-1" ∧
    (sendDataToWebService
      (runUpdates emptyState
        [newRecordUpdate piles20, textUpdate "P-1", textUpdate "Сегодня", textUpdate "12750",
         textUpdate "/skip"])
      (PostOutcome.response 200 "200 OK")).1.CurrentRecord ≠ zeroRecord ∧
    (sendDataToWebService
      (runUpdates emptyState
        [newRecordUpdate piles20, textUpdate "P-1", textUpdate "Сегодня", textUpdate "12750",
         textUpdate "/skip"])
      (PostOutcome.transportError "connection refused")).1
      = runUpdates emptyState
        [newRecordUpdate piles20, textUpdate "P-1", textUpdate "Сегодня", textUpdate "12750",
         textUpdate "/skip"] ∧
    (runUpdates emptyState
        [newRecordUpdate piles20, textUpdate "P-1", textUpdate "Сегодня", textUpdate "12750",
         textUpdate "/skip"]).WaitingFor = "additionalInfo" ∧
    (runUpdates emptyState
        [newRecordUpdate piles20, textUpdate "P-1", textUpdate "Сегодня", textUpdate "12750",
         textUpdate "/skip"]).SelectionHistory ≠ [] := by
  decide

/-- C15: for every session state and every non-empty fetched list L, startNewRecord leaves
the zero record, AvailablePiles = L, WaitingFor = "pileNumber", and a history that holds
nothing of the previous flow: it is empty when L has at most six members and is
splitIntoGroups(L, 6) otherwise. -/
theorem C15_restart_discards_previous_flow (s : UserState) (L : List String) (hL : L ≠ []) :
    (startNewRecord s L).1 =
      { WaitingFor := "pileNumber", CurrentRecord := zeroRecord, AvailablePiles := L,
        SelectionHistory :=
          if L.length ≤ GroupsCount then [] else splitIntoGroups L GroupsCount } := by
  have hne : ¬ L.length = 0 := fun h => hL (List.length_eq_zero.mp h)
  rw [startNewRecord_eq, if_neg hne, showPileGroups_state]
  simp

/-- The witness of C15: a session in the operator step, holding six recorded groups, is
restarted with the list [A, B]. -/
theorem C15_restart_discards_previous_flow_witness :
    (runUpdates emptyState
      [newRecordUpdate piles20, textUpdate "P-1", textUpdate "Сегодня",
       textUpdate "12750"]).SelectionHistory.length = 6 ∧
    (startNewRecord
      (runUpdates emptyState
        [newRecordUpdate piles20, textUpdate "P-1", textUpdate "Сегодня", textUpdate "12750"])
      ["A", "B"]).1 =
      { WaitingFor := "pileNumber", CurrentRecord := zeroRecord, AvailablePiles := ["A", "B"],
        SelectionHistory :=
          if ["A", "B"].length ≤ GroupsCount then [] else splitIntoGroups ["A", "B"] GroupsCount } :=
  ⟨by decide,
    C15_restart_discards_previous_flow
      (runUpdates emptyState
        [newRecordUpdate piles20, textUpdate "P-1", textUpdate "Сегодня", textUpdate "12750"])
      ["A", "B"] (by decide)⟩

/-- C19 (code defect): after /newrecord with [P-1] and the input P-1 the step is
"drivingDate"; a second /newrecord answered with the empty list clears the record and the
candidate list but keeps the step, so the session is in "drivingDate" with the pile number
"" and no candidate at all: PileNumber is not a member of AvailablePiles. -/
theorem C19_step_survives_empty_restart :
    (runUpdates emptyState
      [newRecordUpdate ["P-1"], textUpdate "P-1", newRecordUpdate []]).WaitingFor
      = "drivingDate" ∧
    (runUpdates emptyState
      [newRecordUpdate ["P-1"], textUpdate "P-1", newRecordUpdate []]).CurrentRecord.PileNumber
      = "" ∧
    (runUpdates emptyState
      [newRecordUpdate ["P-1"], textUpdate "P-1", newRecordUpdate []]).AvailablePiles = [] ∧
    (runUpdates emptyState
      [newRecordUpdate ["P-1"], textUpdate "P-1", newRecordUpdate []]).CurrentRecord.PileNumber
      ∉ (runUpdates emptyState
      [newRecordUpdate ["P-1"], textUpdate "P-1", newRecordUpdate []]).AvailablePiles := by
  decide

/-! ## Progress of the drill-down -/

theorem splitIntoGroups_mem_shorter (piles : List String) (g : Nat) (hg : 2 ≤ g)
    (hn : g < piles.length) :
    ∀ grp ∈ splitIntoGroups piles g, 1 ≤ grp.length ∧ grp.length < piles.length := by
  intro grp h
  have hlen := splitIntoGroups_mem_length piles g (by omega) hn grp h
  have h1 : 1 ≤ piles.length / g := (Nat.one_le_div_iff (by omega)).mpr (by omega)
  have h2 : piles.length / g ≤ piles.length / 2 := Nat.div_le_div_left hg (by decide)
  omega

theorem splitIntoGroups_six_ne_nil (cur : List String) (h : GroupsCount < cur.length) :
    splitIntoGroups cur GroupsCount ≠ [] := by
  have h6 : (6 : Nat) < cur.length := h
  have := congrArg List.length (splitIntoGroups_map_length cur 6 (by decide) h6)
  simp only [List.length_map, List.length_range] at this
  intro e
  have e' : splitIntoGroups cur 6 = [] := e
  rw [e'] at this
  simp at this

/-- Whatever offered group is selected at each menu, the handlers follow the selection
down to a flat list, in at most `length - GroupsCount` selections, when the candidates are
pairwise distinct and free of dots. -/
theorem drillWith_reaches_flat (now : WallClock) (L : List String) (nd : L.Nodup)
    (df : ∀ q ∈ L, dotFree q) (choose : List (List String) → List String)
    (hchoose : ∀ groups, groups ≠ [] → choose groups ∈ groups) :
    ∀ (fuel : Nat) (cur : List String) (s : UserState), cur.length ≤ fuel →
      cur <:+: s.AvailablePiles → s.AvailablePiles = L → histOK s →
      s.WaitingFor = "pileNumber" →
      (drillWith choose fuel cur).length ≤ cur.length - GroupsCount ∧
      ∃ G : List String,
        ((showPileGroups s cur).2 ++
            (runTexts now (showPileGroups s cur).1 (drillWith choose fuel cur)).2).getLast?
          = some (Effect.keyboard "Выберите номер сваи:" (G.map fun pile => [pile])) ∧
        G.length ≤ GroupsCount := by
  intro fuel
  induction fuel with
  | zero =>
    intro cur s hlen _ _ _ _
    have hflat : cur.length ≤ GroupsCount := by omega
    refine ⟨by simp [drillWith], cur, ?_, hflat⟩
    simp [drillWith, runTexts, showPileGroups_flat s cur hflat]
  | succ fuel ih =>
    intro cur s hlen hinf hL hs hw
    by_cases hflat : cur.length ≤ GroupsCount
    · refine ⟨by simp [drillWith, hflat], cur, ?_, hflat⟩
      simp [drillWith, hflat, runTexts, showPileGroups_flat s cur hflat]
    · have hbig : GroupsCount < cur.length := by omega
      have hgm : choose (splitIntoGroups cur GroupsCount) ∈ splitIntoGroups cur GroupsCount :=
        hchoose _ (splitIntoGroups_six_ne_nil cur hbig)
      generalize hg : choose (splitIntoGroups cur GroupsCount) = g at hgm
      have hglen := splitIntoGroups_six_length cur hbig g hgm
      have hgne : g ≠ [] := fun e => by rw [e] at hglen; simp at hglen
      obtain ⟨a, b, _, _, hlab⟩ := groupLabel_of_ne_nil hgne
      have hs' : histOK (showPileGroups s cur).1 := histOK_showPileGroups s cur hs hinf
      have hw' : (showPileGroups s cur).1.WaitingFor = "pileNumber" := by
        rw [showPileGroups_waiting]; exact hw
      have hL' : (showPileGroups s cur).1.AvailablePiles = L := by
        rw [showPileGroups_piles]; exact hL
      have hgh : g ∈ (showPileGroups s cur).1.SelectionHistory := by
        rw [showPileGroups_state]
        simp only [if_neg hflat]
        exact List.mem_append_right _ hgm
      have hginf : g <:+: (showPileGroups s cur).1.AvailablePiles := (hs' g hgh).2
      have hstep : processUserInput now (showPileGroups s cur).1 (rangeLabel a b)
          = showPileGroups (showPileGroups s cur).1 g := by
        rw [processUserInput_pileNumber _ _ _ hw']
        exact handlePileNumberSelection_group L nd df _ hL' hs' g hgh _ hlab
      have hin : drillWith choose (fuel + 1) cur = rangeLabel a b :: drillWith choose fuel g := by
        simp [drillWith, hflat, hg, hlab]
      obtain ⟨hbound, G, h1, h2⟩ := ih g (showPileGroups s cur).1 (by omega) hginf hL' hs' hw'
      refine ⟨?_, G, ?_, h2⟩
      · rw [hin, List.length_cons]
        have h6 : GroupsCount = 6 := rfl
        omega
      · rw [hin]
        simp only [runTexts, hstep]
        rw [List.getLast?_append, h1]
        rfl

/-- C18 (amended): for a group count g ≥ 2 and a list of length n > g (in particular g = 6
and n > 6), every group of splitIntoGroups is non-empty and strictly shorter than the
list, so it has a label and the guards for empty groups are never taken; and when the
identifiers are pairwise distinct and contain no `.`, the dialogue started by
startNewRecord on the list, in which at every menu any one of the offered groups is
selected by its label, shows a flat list of at most six identifiers after at most n - 6
selections. -/
theorem C18_drill_down_progress (piles : List String) (g : Nat) (hg : 2 ≤ g)
    (hn : g < piles.length) :
    (∀ grp ∈ splitIntoGroups piles g,
      1 ≤ grp.length ∧ grp.length < piles.length ∧ ∃ l, groupLabel grp = some l) ∧
    (piles.Nodup → (∀ q ∈ piles, dotFree q) →
      ∀ (s0 : UserState) (now : WallClock) (choose : List (List String) → List String),
        (∀ groups, groups ≠ [] → choose groups ∈ groups) →
        (drillWith choose piles.length piles).length ≤ piles.length - GroupsCount ∧
        ∃ G : List String,
          ((startNewRecord s0 piles).2 ++
              (runTexts now (startNewRecord s0 piles).1
                (drillWith choose piles.length piles)).2).getLast?
            = some (Effect.keyboard "Выберите номер сваи:" (G.map fun pile => [pile])) ∧
          G.length ≤ GroupsCount) := by
  constructor
  · intro grp h
    obtain ⟨h1, h2⟩ := splitIntoGroups_mem_shorter piles g hg hn grp h
    have hne : grp ≠ [] := fun e => by rw [e] at h1; simp at h1
    obtain ⟨a, b, _, _, hl⟩ := groupLabel_of_ne_nil hne
    exact ⟨h1, h2, _, hl⟩
  · intro nd df s0 now choose hchoose
    have hne : ¬ piles.length = 0 := by omega
    rw [startNewRecord_eq, if_neg hne]
    exact drillWith_reaches_flat now piles nd df choose hchoose piles.length piles
      { WaitingFor := "pileNumber", CurrentRecord := zeroRecord, AvailablePiles := piles,
        SelectionHistory := [] }
      (Nat.le_refl _) (List.infix_refl _) rfl (by intro grp h; simp at h) rfl

/-- The witness of C18 (amended): twenty identifiers P-1..P-20 and six groups; selecting
the last offered group each time takes one selection, "P-18..P-20", and ends with a flat
list. -/
theorem C18_drill_down_progress_witness :
    drillWith (fun groups => groups.getLastD []) piles20.length piles20 = ["P-18..P-20"] ∧
    (∀ grp ∈ splitIntoGroups piles20 6,
      1 ≤ grp.length ∧ grp.length < piles20.length ∧ ∃ l, groupLabel grp = some l) ∧
    ((drillWith (fun groups => groups.getLastD []) piles20.length piles20).length
        ≤ piles20.length - GroupsCount ∧
      ∃ G : List String,
        ((startNewRecord emptyState piles20).2 ++
            (runTexts clock0 (startNewRecord emptyState piles20).1
              (drillWith (fun groups => groups.getLastD []) piles20.length piles20)).2).getLast?
          = some (Effect.keyboard "Выберите номер сваи:" (G.map fun pile => [pile])) ∧
        G.length ≤ GroupsCount) :=
  ⟨by decide, (C18_drill_down_progress piles20 6 (by decide) (by decide)).1,
    (C18_drill_down_progress piles20 6 (by decide) (by decide)).2 (by decide) (by decide)
      emptyState clock0 (fun groups => groups.getLastD [])
      (fun groups h => by
        cases groups with
        | nil => exact absurd rfl h
        | cons a rest => exact List.getLast_mem _)⟩

theorem runTexts_cons (now : WallClock) (s : UserState) (t : String) (ts : List String) :
    runTexts now s (t :: ts) =
      ((runTexts now (processUserInput now s t).1 ts).1,
        (processUserInput now s t).2 ++ (runTexts now (processUserInput now s t).1 ts).2) :=
  rfl

theorem sameName_step (now : WallClock) (s : UserState) (rest : List (List String))
    (hw : s.WaitingFor = "pileNumber")
    (hh : s.SelectionHistory = List.replicate 8 "x" :: rest) :
    (processUserInput now s "x..x").2 = [sameNameMenu] ∧
    (processUserInput now s "x..x").1.WaitingFor = "pileNumber" ∧
    ∃ rest', (processUserInput now s "x..x").1.SelectionHistory
      = List.replicate 8 "x" :: rest' := by
  have hstep : processUserInput now s "x..x" = showPileGroups s (List.replicate 8 "x") := by
    rw [processUserInput_pileNumber _ _ _ hw]
    unfold handlePileNumberSelection
    rw [if_pos (by decide), hh]
    rfl
  rw [hstep]
  refine ⟨rfl, by rw [showPileGroups_waiting]; exact hw, ?_⟩
  rw [showPileGroups_state, hh]
  exact ⟨_, rfl⟩

theorem sameName_never_flat (now : WallClock) :
    ∀ (k : Nat) (s : UserState) (rest : List (List String)), s.WaitingFor = "pileNumber" →
      s.SelectionHistory = List.replicate 8 "x" :: rest →
      (runTexts now s (List.replicate (k + 1) "x..x")).2.getLast? = some sameNameMenu := by
  intro k
  induction k with
  | zero =>
    intro s rest hw hh
    obtain ⟨h1, _, _⟩ := sameName_step now s rest hw hh
    simp [List.replicate, runTexts, h1]
  | succ k ih =>
    intro s rest hw hh
    obtain ⟨h1, h2, rest', h3⟩ := sameName_step now s rest hw hh
    have := ih (processUserInput now s "x..x").1 rest' h2 h3
    rw [List.replicate_succ, runTexts_cons]
    show ((processUserInput now s "x..x").2 ++
      (runTexts now (processUserInput now s "x..x").1
        (List.replicate (k + 1) "x..x")).2).getLast? = some sameNameMenu
    rw [List.getLast?_append, this]
    rfl

/-- C18 as stated fails: with 43 candidates that all carry the name "x", every menu of
groups offers six buttons "x..x", and the label "x..x" always selects the first recorded
group of eight, so after any number of selections the answer is again a menu of groups and
no flat list is ever shown, although every group is shorter than the list it came from. -/
theorem C18_same_label_counterexample :
    GroupsCount < sameNamePiles.length ∧
    (startNewRecord emptyState sameNamePiles).2 = [sameNameMenu] ∧
    (runTexts clock0 (startNewRecord emptyState sameNamePiles).1 ["x..x"]).2
      = [sameNameMenu] ∧
    (runTexts clock0 (startNewRecord emptyState sameNamePiles).1
      ["x..x", "x..x", "x..x"]).1.SelectionHistory.length = 24 ∧
    (∀ k : Nat,
      (runTexts clock0 (startNewRecord emptyState sameNamePiles).1
        (List.replicate (k + 1) "x..x")).2.getLast? = some sameNameMenu) := by
  refine ⟨by decide, by decide, by decide, by decide, ?_⟩
  intro k
  exact sameName_never_flat clock0 k _ _ (by decide)
    (show (startNewRecord emptyState sameNamePiles).1.SelectionHistory
      = List.replicate 8 "x" :: (splitIntoGroups sameNamePiles GroupsCount).tail by decide)

/-! ## The date step -/

theorem isLeap_iff (year : Int) : isLeap year = true ↔ gregorianLeap year := by
  unfold isLeap gregorianLeap
  simp only [Bool.and_eq_true, Bool.or_eq_true, beq_iff_eq, bne_iff_ne, ne_eq]
  omega

theorem daysBeforeYear_succ (year : Int) :
    daysBeforeYear (year + 1) = daysBeforeYear year + yearLength year := by
  unfold daysBeforeYear yearLength gregorianLeap
  simp only [add_sub_cancel_right]
  split <;> omega

theorem daysBeforeYear_up (n : Nat) : daysBeforeYear ((n : Int) + 1) = daysOfYearsUp n := by
  induction n with
  | zero => rfl
  | succ k ih =>
    rw [daysOfYearsUp, ← ih, Nat.cast_succ, daysBeforeYear_succ]

theorem daysBeforeYear_down (n : Nat) :
    daysBeforeYear (1 - (n : Int)) = -daysOfYearsDown n := by
  induction n with
  | zero => rfl
  | succ k ih =>
    have h := daysBeforeYear_succ (-(k : Int))
    have e1 : -(k : Int) + 1 = 1 - (k : Int) := by omega
    have e2 : (1 : Int) - ((k + 1 : Nat) : Int) = -(k : Int) := by omega
    rw [e1, ih] at h
    rw [daysOfYearsDown, e2]
    omega

theorem daysBeforeYear_eq (year : Int) : daysBeforeYear year = daysToYear year := by
  unfold daysToYear
  split
  · rename_i h
    have := daysBeforeYear_up (year - 1).toNat
    have e : (((year - 1).toNat : Nat) : Int) + 1 = year := by omega
    rw [e] at this
    exact this
  · rename_i h
    have := daysBeforeYear_down (1 - year).toNat
    have e : 1 - (((1 - year).toNat : Nat) : Int) = year := by omega
    rw [e] at this
    exact this
theorem daysBefore_eq (year m : Int) (h1 : 1 ≤ m) (h2 : m ≤ 12) :
    daysBefore (m - 1) + (if isLeap year && decide (m ≥ 3) then 1 else 0)
      = daysOfMonths year (m - 1).toNat := by
  by_cases hl : gregorianLeap year
  · have hb : isLeap year = true := (isLeap_iff year).mpr hl
    interval_cases m <;> simp [hb, hl, daysBefore, daysOfMonths, monthLength]
  · have hb : isLeap year = false := by
      cases h : isLeap year with
      | false => rfl
      | true => exact absurd ((isLeap_iff year).mp h) hl
    interval_cases m <;> simp [hb, hl, daysBefore, daysOfMonths, monthLength]

theorem norm_month (year m : Int) (h1 : 1 ≤ m) (h2 : m ≤ 12) :
    norm year (m - 1) 12 = (year, m - 1) := by
  unfold norm
  simp only [show ¬ (m - 1 < 0) by omega, if_false, show ¬ (m - 1 ≥ 12) by omega]

/-- On a month from 1 to 12, `time.Date` at midnight UTC is the instant counted day by
day, whatever the day number. -/
theorem timeDate_eq_midnightUTC (year m d : Int) (h1 : 1 ≤ m) (h2 : m ≤ 12) :
    timeDate year m d = midnightUTC { Year := year, Month := m, Day := d } := by
  unfold timeDate midnightUTC
  simp only [norm_month year m h1 h2, sub_add_cancel]
  rw [daysBeforeYear_eq, add_assoc (daysToYear year), daysBefore_eq year m h1 h2]

theorem monthLength_ge (year m : Int) : 28 ≤ monthLength year m := by
  unfold monthLength
  split
  · split <;> omega
  · split <;> omega

theorem daysToYear_pred (year : Int) :
    daysToYear year = daysToYear (year - 1) + yearLength (year - 1) := by
  rw [← daysBeforeYear_eq, ← daysBeforeYear_eq]
  have := daysBeforeYear_succ (year - 1)
  rwa [sub_add_cancel] at this

theorem daysOfMonths_eleven (year : Int) :
    daysOfMonths year 11 + 31 = yearLength year := by
  unfold yearLength
  by_cases hl : gregorianLeap year <;> simp [hl, daysOfMonths, monthLength]

theorem previousDay_spec (c : WallClock) (hv : validDate c) :
    validDate (previousDay c) ∧
      (midnightUTC (previousDay c)).sec + 86400 = (midnightUTC c).sec := by
  obtain ⟨hm1, hm2, hd1, hd2⟩ := hv
  unfold previousDay
  split
  · rename_i hd
    refine ⟨⟨hm1, hm2, ?_, ?_⟩, ?_⟩
    · show 1 ≤ c.Day - 1
      omega
    · show c.Day - 1 ≤ monthLength c.Year c.Month
      omega
    · simp only [midnightUTC]
      omega
  · rename_i hd
    split
    · rename_i hm
      refine ⟨⟨?_, ?_, ?_, ?_⟩, ?_⟩
      · show 1 ≤ c.Month - 1
        omega
      · show c.Month - 1 ≤ 12
        omega
      · show 1 ≤ monthLength c.Year (c.Month - 1)
        have := monthLength_ge c.Year (c.Month - 1)
        omega
      · exact Int.le_refl _
      · simp only [midnightUTC]
        have e1 : (c.Month - 1).toNat = (c.Month - 1 - 1).toNat + 1 := by omega
        have e2 : (((c.Month - 1 - 1).toNat + 1 : Nat) : Int) = c.Month - 1 := by omega
        have e3 : daysOfMonths c.Year (c.Month - 1).toNat
            = daysOfMonths c.Year (c.Month - 1 - 1).toNat + monthLength c.Year (c.Month - 1) := by
          rw [e1, daysOfMonths]
          have : (((c.Month - 1 - 1).toNat : Nat) : Int) + 1 = c.Month - 1 := by omega
          rw [this]
        rw [e3]
        omega
    · rename_i hm
      have hM : c.Month = 1 := by omega
      have hD : c.Day = 1 := by omega
      refine ⟨⟨?_, ?_, ?_, ?_⟩, ?_⟩
      · show (1 : Int) ≤ 12
        decide
      · show (12 : Int) ≤ 12
        decide
      · show (1 : Int) ≤ 31
        decide
      · show (31 : Int) ≤ monthLength (c.Year - 1) 12
        simp [monthLength]
      · simp only [midnightUTC, hM, hD]
        have h1 := daysToYear_pred c.Year
        have h2 := daysOfMonths_eleven (c.Year - 1)
        have h3 : ((12 : Int) - 1).toNat = 11 := rfl
        have h4 : ((1 : Int) - 1).toNat = 0 := rfl
        rw [h3, h4, daysOfMonths]
        omega

/-- C16: in the date step, with the reading of the clock a calendar date, "Сегодня" sets
StartDate to 00:00:00 UTC of that date and "Вчера" sets it to 00:00:00 UTC of the calendar
day before (the last day of the previous month on the first of a month, December 31 of
the previous year on January 1), exactly 86400 seconds earlier; both advance the step to
"pileTopLevel". -/
theorem C16_today_and_yesterday (now : WallClock) (s : UserState) (hv : validDate now)
    (hw : s.WaitingFor = "drivingDate") :
    (processUserInput now s "Сегодня").1.CurrentRecord.StartDate = midnightUTC now ∧
    (processUserInput now s "Сегодня").1.WaitingFor = "pileTopLevel" ∧
    (processUserInput now s "Вчера").1.CurrentRecord.StartDate = midnightUTC (previousDay now) ∧
    (processUserInput now s "Вчера").1.WaitingFor = "pileTopLevel" ∧
    validDate (previousDay now) ∧
    (midnightUTC (previousDay now)).sec + 86400 = (midnightUTC now).sec := by
  have hp : ∀ t, processUserInput now s t = handleDrivingDateSelection now s t := by
    intro t
    unfold processUserInput
    rw [if_neg (by rw [hw]; decide), if_pos hw]
  obtain ⟨hpv, hps⟩ := previousDay_spec now hv
  obtain ⟨hm1, hm2, _, _⟩ := hv
  have htoday : timeDate now.Year now.Month now.Day = midnightUTC now :=
    timeDate_eq_midnightUTC now.Year now.Month now.Day hm1 hm2
  have hyest : timeDate now.Year now.Month (now.Day - 1) = midnightUTC (previousDay now) := by
    have h1 := timeDate_eq_midnightUTC now.Year now.Month (now.Day - 1) hm1 hm2
    have h2 : (midnightUTC { Year := now.Year, Month := now.Month, Day := now.Day - 1 }).sec
        + 86400 = (midnightUTC now).sec := by
      simp only [midnightUTC]
      omega
    rw [h1]
    have : (midnightUTC { Year := now.Year, Month := now.Month, Day := now.Day - 1 }).sec
        = (midnightUTC (previousDay now)).sec := by omega
    cases hA : midnightUTC { Year := now.Year, Month := now.Month, Day := now.Day - 1 }
    cases hB : midnightUTC (previousDay now)
    rw [hA, hB] at this
    simp only at this
    rw [this]
  refine ⟨?_, ?_, ?_, ?_, hpv, hps⟩
  · rw [hp]
    simp [handleDrivingDateSelection, htoday]
  · rw [hp]
    simp [handleDrivingDateSelection]
  · rw [hp]
    simp [handleDrivingDateSelection, hyest]
  · rw [hp]
    simp [handleDrivingDateSelection]

/-- The witness of C16: on 1 March 2024 yesterday is 29 February 2024, and on 1 January
2025 it is 31 December 2024. -/
theorem C16_today_and_yesterday_witness :
    previousDay clock0 = { Year := 2024, Month := 2, Day := 29 } ∧
    previousDay newYear2025 = { Year := 2024, Month := 12, Day := 31 } ∧
    (runUpdates emptyState
      [newRecordUpdate ["P-1"], textUpdate "P-1", textUpdate "Вчера"]).CurrentRecord.StartDate
      = { sec := 63844761600 } ∧
    ((processUserInput newYear2025
        (runUpdates emptyState [newRecordUpdate ["P-1"], textUpdate "P-1"])
        "Сегодня").1.CurrentRecord.StartDate = midnightUTC newYear2025 ∧
    (processUserInput newYear2025
        (runUpdates emptyState [newRecordUpdate ["P-1"], textUpdate "P-1"])
        "Сегодня").1.WaitingFor = "pileTopLevel" ∧
    (processUserInput newYear2025
        (runUpdates emptyState [newRecordUpdate ["P-1"], textUpdate "P-1"])
        "Вчера").1.CurrentRecord.StartDate = midnightUTC (previousDay newYear2025) ∧
    (processUserInput newYear2025
        (runUpdates emptyState [newRecordUpdate ["P-1"], textUpdate "P-1"])
        "Вчера").1.WaitingFor = "pileTopLevel" ∧
    validDate (previousDay newYear2025) ∧
    (midnightUTC (previousDay newYear2025)).sec + 86400 = (midnightUTC newYear2025).sec) :=
  ⟨by decide, by decide, by decide,
    C16_today_and_yesterday newYear2025
      (runUpdates emptyState [newRecordUpdate ["P-1"], textUpdate "P-1"])
      ⟨by decide, by decide, by decide, by decide⟩ (by decide)⟩

end PileBot
